import Mathlib

/-!
Verification development for the tree-extraction core of Curl2json
(`internal/extractor/tree.go`).

The Go code decodes a JSON payload into dynamic values
(`map[string]interface{}` / `[]interface{}` / `string` / `float64` /
`bool` / `nil`) and extracts a simplified tree of named nodes.  We embed
the decoded JSON values as the inductive type `JVal` (objects are kept
as association lists in document order; Go's map iteration order is
unspecified, document order is the determinization used here) and
translate each Go function into a Lean function of the same name.

Machine integers do not occur in the extractor (all counters are small
`int`s used as list lengths / depths, modelled by `Nat`; scores can be
negative, modelled by `Int`).  JSON numbers decode to Go `float64`; here
they are carried exactly as `Rat` — no extracted claim inspects a
numeric value, numbers only flow (unexamined) into `%v`-rendered
placeholder names.
-/

/-- Decoded JSON value (Go `interface{}` after `json.Unmarshal`).
Objects are association lists in document order. -/
inductive JVal where
  | null : JVal
  | bool (b : Bool) : JVal
  | num (q : Rat) : JVal
  | str (s : String) : JVal
  | arr (xs : List JVal) : JVal
  | obj (kvs : List (String × JVal)) : JVal

/-- Output node (Go `SimplifiedNode`, serialized with fields
`name`/`children`). -/
structure SimplifiedNode where
  name : String
  children : List SimplifiedNode

/-- The dynamic value `Extract` hands to `json.MarshalIndent`: either a
single `*SimplifiedNode`, a `[]*SimplifiedNode`, or a typed-nil
`*SimplifiedNode` (a non-nil `interface{}` holding a nil pointer, which
marshals to JSON `null`). -/
inductive ResultVal where
  | single (n : SimplifiedNode) : ResultVal
  | multi (ns : List SimplifiedNode) : ResultVal
  | nilPtr : ResultVal

/-- Errors surfaced by the embedded `Extract` pipeline.  `goPanic`
models a Go runtime panic (reached via `reflect.TypeOf(nil).Kind()` in
`findChildren`); `decodeError` is `json.Unmarshal` failure;
`noStructure` is the `"未找到有效的树状结构"` error. -/
inductive ExtractErr where
  | goPanic : ExtractErr
  | decodeError : ExtractErr
  | noStructure : ExtractErr
deriving DecidableEq

/-- Extractor configuration (Go `TreeExtractor` — the `verbose` flag
only controls logging and is omitted). -/
structure TreeExtractor where
  titleKeys : List String
  childrenKeys : List String
  maxDepth : Nat

/-- Go `New`: defaults applied for empty key lists, `maxDepth = 100`. -/
def TreeExtractor.new (tks cks : List String) : TreeExtractor :=
  { titleKeys := if tks = [] then ["case_title", "title", "name", "label"] else tks
    childrenKeys := if cks = [] then ["children", "nodes", "sub_cases", "items", "data"] else cks
    maxDepth := 100 }

/-! ## Go standard-library string primitives (on `String` as rune lists) -/

/-- `sub` occurs as a contiguous sublist of `l`. -/
def listInfix (sub l : List Char) : Bool :=
  match l with
  | [] => sub.isEmpty
  | _ :: t => sub.isPrefixOf l || listInfix sub t

/-- Go `strings.Contains`. -/
def goContains (s sub : String) : Bool := listInfix sub.data s.data

/-- Go `strings.HasPrefix`. -/
def goStarts (s pre : String) : Bool := pre.data.isPrefixOf s.data

/-- Go `len([]rune(s))`. -/
def runeLen (s : String) : Nat := s.data.length

/-- Go `len(s)` (byte length of the UTF-8 encoding). -/
def goByteLen (s : String) : Nat := s.data.foldl (fun n c => n + c.utf8Size) 0

/-- Go `strings.ToLower` (ASCII case folding suffices for the
configured all-ASCII keyword arguments). -/
def goToLower (s : String) : String := String.mk (s.data.map Char.toLower)

/-- Go `strings.EqualFold` (simple case folding). -/
def goEqualFold (a b : String) : Bool := goToLower a == goToLower b

/-- `true` iff `s` contains (as substring) some element of `ks`. -/
def containsAny (s : String) (ks : List String) : Bool :=
  ks.any (fun k => goContains s k)

/-- Association-list lookup, the embedding of Go `obj[key]`. -/
def jlookup (kvs : List (String × JVal)) (k : String) : Option JVal :=
  match kvs with
  | [] => none
  | (k₀, v₀) :: rest => if k₀ = k then some v₀ else jlookup rest k

/-! ## Business text classifier (`isBusinessText` and friends) -/

/-- The `technicalKeywords` block list of `isBusinessText`. -/
def technicalKeywords : List String :=
  ["CreatedAt", "UpdatedAt", "TestCaseId", "ProductId", "errCode",
   "Status", "StatusCode", "CaseNum", "BaseType", "SourceType",
   "IsTemplate", "IsStrict", "Theme", "Remark", "Template",
   "EntityId", "EntityVersion", "CustomFields", "Directory",
   "CreatedBy", "UpdatedBy", "ParentDirLink", "BaseResp",
   "CreatedAtTS", "UpdatedAtTS", "TestCaseStatus", "CommentInfo",
   "BelongIDList", "MarkingCheck", "StrictMindVersion",
   "BitsDependencies", "TempParentDirLink", "FlowItemList",
   "ScriptCaseList", "images", "imageSize", "hyperlink",
   "hyperlinkTitle", "progress", "priority", "script_task",
   "resource", "nodeType", "parentID", "attachment", "genId",
   "WorkItemTypeKey", "RequirementId", "RequirementLink",
   "RequirementSource", "RequirementTitle", "project", "projectName",
   "UserKey", "DisplayName", "EnName", "DirId", "DirName",
   "DirNameEn", "total", "finish", "session_id", "expiry_time",
   "token_type", "permissions", "user", "donghe", "kilov",
   "sess_", "JWT", "debug_info", "details", "suggestions",
   "Please refresh", "Check your", "Contact support", "Auth",
   "ERROR", "validate", "failed", "expired", "Token",
   "王通", "张三", "李四", "wangtong", "Created By", "updated by",
   "message", "Auth ERROR", "Jwt validate failed", "API Response",
   "Unauthorized", "errCode", "caseApi", "getCaseDetail"]

/-- The short-CJK-name business keyword allow list (the
`businessKeywords` local of the 2–4 rune personal-name filter). -/
def shortCJKBusinessKeywords : List String :=
  ["测试", "优化", "性能", "场景", "验证", "回归",
   "组", "实验", "对照", "逻辑", "方案", "功能", "页面", "模块", "流程",
   "门店", "搜索", "输入", "结果", "包含", "客户", "详情", "列表", "数据", "扫码", "核销",
   "资产", "中心", "商家", "产品", "实时", "订单", "指标", "展示", "排序", "筛选",
   "从高", "从低", "由远", "由近", "到大", "到小", "默认", "不可", "操作", "高到低", "低到高", "远到近", "近到远",
   "CRM", "Agent", "智能", "对话", "多轮", "携带", "上下文", "切换", "主题", "问题", "体验", "优化",
   "查询", "数值", "空", "拒答", "场景", "历史", "存在", "维度", "正确", "展示为"]

/-- The numbered-step business keyword list (the `businessKeywords`
local of the numeric-prefix filter). -/
def numericStepKeywords : List String :=
  ["用户", "查询", "指标", "数据", "结果", "展示",
   "Agent", "多轮", "对话", "携带", "上下文", "筛选", "条件", "切换", "主题", "开始", "新"]

/-- `shortTechnicalWords` of `isBusinessText`. -/
def shortTechnicalWords : List String :=
  ["api", "url", "http", "get", "post", "put", "delete"]

/-- `meaningfulWords` of `isEnglishBusinessText`. -/
def meaningfulWords : List String :=
  ["test", "check", "verify", "validate", "confirm", "review",
   "optimize", "performance", "scenario", "case", "step",
   "benchmark", "baseline", "regression", "functional",
   "integration", "monitor", "alert", "security", "login",
   "logout", "auth", "user", "admin", "system", "feature",
   "module", "component", "service", "api", "endpoint",
   "request", "response", "client", "server", "database",
   "frontend", "backend", "interface", "config", "setting"]

/-- Go `hasChinese`: some rune lies in U+4E00–U+9FFF. -/
def hasChinese (text : String) : Bool :=
  text.data.any (fun r => 0x4e00 ≤ r.toNat && r.toNat ≤ 0x9fff)

/-- Go `isEnglishBusinessText`. -/
def isEnglishBusinessText (text : String) : Bool :=
  if goByteLen text < 3 then false
  else containsAny (goToLower text) meaningfulWords

/-- The extra "API error response" filter of `isBusinessText`. -/
def specialErrorFilter (text : String) : Bool :=
  goContains text "Auth ERROR" || goContains text "Jwt validate failed" ||
  goContains text "API Response" || goContains text "errCode"

/-- The 2–4 rune CJK personal-name filter: rejected iff short, Chinese,
and without any allow-listed business keyword. -/
def shortCJKNameReject (text : String) : Bool :=
  2 ≤ runeLen text && runeLen text ≤ 4 && hasChinese text &&
  !(containsAny text shortCJKBusinessKeywords)

/-- The numeric prefixes `"1."` … `"9."` tested by `isBusinessText`. -/
def numericPrefixes : List String :=
  ["1.", "2.", "3.", "4.", "5.", "6.", "7.", "8.", "9."]

/-- `true` iff the text starts with one of `"1."` … `"9."`. -/
def startsNumbered (text : String) : Bool :=
  numericPrefixes.any (fun p => goStarts text p)

/-- The short numbered-step filter: rejected iff numeric-prefixed,
shorter than 10 runes, and without any step business keyword. -/
def numericStepReject (text : String) : Bool :=
  startsNumbered text && runeLen text < 10 &&
  !(containsAny text numericStepKeywords)

/-- The serialized-technical-value filter (`e+`/`E+`/`[]`/`{}`/`map[`
prefixes and `": 0"`-style dumps). -/
def serializedReject (text : String) : Bool :=
  goStarts text "e+" || goStarts text "E+" ||
  goStarts text "[]" || goStarts text "\x7b\x7d" ||
  goStarts text "map[" || goContains text ": 0" ||
  goContains text ": 1" || goContains text ": false" ||
  goContains text ": true" || goContains text "read write"

/-- The short English technical word filter (case-insensitive whole
match against `shortTechnicalWords`). -/
def shortTechReject (text : String) : Bool :=
  shortTechnicalWords.any (fun w => goEqualFold text w)

/-- Go `isBusinessText`: the sequential rejection chain followed by the
CJK / English acceptance rules. -/
def isBusinessText (text : String) : Bool :=
  if text = "" then false
  else if containsAny text technicalKeywords then false
  else if specialErrorFilter text then false
  else if shortCJKNameReject text then false
  else if numericStepReject text then false
  else if serializedReject text then false
  else if shortTechReject text then false
  else if hasChinese text then true
  else isEnglishBusinessText text

/-- `uiBusinessElements` of `isUIBusinessText`. -/
def uiBusinessElements : List String :=
  ["APP端", "PC端", "Web端", "移动端", "桌面端",
   "接口验证", "筛选", "排序", "搜索", "列表", "详情",
   "展示", "页面", "界面", "菜单", "按钮", "选项",
   "指标", "数据", "统计", "报表", "图表",
   "功能", "模块", "组件", "流程"]

/-- The compound-marker business keywords of `isUIBusinessText`. -/
def uiCompoundKeywords : List String :=
  ["客户", "门店", "订单", "商品", "用户", "数据", "接口"]

/-- `stepBusinessKeywords` of `isUIBusinessText`. -/
def uiStepKeywords : List String :=
  ["用户", "查询", "指标", "数据", "结果", "展示",
   "Agent", "多轮", "对话", "携带", "上下文", "筛选", "条件", "切换", "主题", "开始", "新",
   "问题", "体验", "优化", "CRM", "智能", "数值", "空", "拒答", "场景", "历史", "存在", "维度"]

/-- Go `isUIBusinessText` (the `depth` parameter is only used for
logging in the source and is kept for signature fidelity). -/
def isUIBusinessText (text : String) (_depth : Nat) : Bool :=
  if text = "" then false
  else if containsAny text uiBusinessElements then true
  else if (goContains text "&" || goContains text "端") &&
          containsAny text uiCompoundKeywords then true
  else if startsNumbered text && containsAny text uiStepKeywords then true
  else false

/-! ## Text content collection (`ExtractTextContent`) -/

/-- The `richText` pre-pass of `ExtractTextContent`: texts of the
elements of a `richText` array that classify as business text. -/
def richTextTexts (v : List (String × JVal)) : List String :=
  match jlookup v "richText" with
  | some (.arr items) =>
    items.filterMap fun item =>
      match item with
      | .obj o =>
        match jlookup o "text" with
        | some (.str t) => if t ≠ "" && isBusinessText t then some t else none
        | _ => none
      | _ => none
  | _ => []

/-- A text-bearing key of the `ExtractTextContent` key loop: the value
if it is a non-empty business string, else nothing. -/
def textValueOf (value : JVal) : List String :=
  match value with
  | .str t => if t ≠ "" && isBusinessText t then [t] else []
  | _ => []

mutual

/-- Go `ExtractTextContent`: collect every business-text string, with
the `richText` pre-pass, text-like key handling, and recursion into all
other values.  (The Go receiver reads no extractor fields; Go's map
iteration order is unspecified — document order here.) -/
def ExtractTextContent : JVal → List String
  | .str v => if v ≠ "" && isBusinessText v then [v] else []
  | .obj v => richTextTexts v ++ etcEntries v
  | .arr v => etcList v
  | _ => []

/-- The `for key, value := range v` loop of `ExtractTextContent`. -/
def etcEntries : List (String × JVal) → List String
  | [] => []
  | (key, value) :: rest =>
    (if key = "text" || goContains key "text" then textValueOf value
     else if key = "title" || key = "name" || key = "label" ||
             key = "message" || key = "description" then textValueOf value
     else ExtractTextContent value) ++ etcEntries rest

/-- The array case of `ExtractTextContent`. -/
def etcList : List JVal → List String
  | [] => []
  | x :: xs => ExtractTextContent x ++ etcList xs

end

/-! ## Go `fmt` `%v` rendering (only ever used to label synthetic
nodes; the numeric case approximates Go's `float64` `%g` formatting,
which no extracted claim inspects) -/

/-- `%v` of a JSON number (Go renders the decoded `float64` with the
`%g` verb; integral values print as plain integers). -/
def govFmtNum (q : Rat) : String :=
  if q.den = 1 then toString q.num else toString q

/-- Joins rendered map entries in key-sorted order (Go `fmt` sorts map
keys before printing). -/
def govFmtMap (entries : List (String × String)) : String :=
  let sorted := entries.mergeSort (fun a b => a.1 ≤ b.1)
  String.intercalate " " (sorted.map (fun p => p.1 ++ ":" ++ p.2))

mutual

/-- Go `fmt.Sprintf("%v", value)` on a decoded JSON value. -/
def govFmt : JVal → String
  | .null => "<nil>"
  | .bool true => "true"
  | .bool false => "false"
  | .num q => govFmtNum q
  | .str s => s
  | .arr xs => "[" ++ govFmtList xs ++ "]"
  | .obj kvs => "map[" ++ govFmtMap (govFmtEntries kvs) ++ "]"

/-- Renders each object entry (`fmt` prints map entries sorted by key;
sorting happens on the rendered pairs in `govFmt`). -/
def govFmtEntries : List (String × JVal) → List (String × String)
  | [] => []
  | (k, v) :: rest => (k, govFmt v) :: govFmtEntries rest

/-- Space-separated `%v` forms of array elements. -/
def govFmtList : List JVal → String
  | [] => ""
  | [x] => govFmt x
  | x :: xs => govFmt x ++ " " ++ govFmtList xs

end

/-! ## Generic fallback extractor (`findTitle` / `findChildren` /
`extractTree` / `tryStandardTreeStructure`) -/

/-- Go `findTitle`: first configured title key holding a non-empty
string. -/
def findTitle (e : TreeExtractor) (obj : List (String × JVal)) : String :=
  go e.titleKeys
where
  go : List String → String
  | [] => ""
  | key :: rest =>
    match jlookup obj key with
    | some (.str title) => if title ≠ "" then title else go rest
    | _ => go rest

/-- Go `findChildren`: first configured children key holding a
non-empty array.  A `null` value under a configured key makes
`reflect.TypeOf(value)` return a nil `reflect.Type`, and the subsequent
`.Kind()` call panics — modelled as `.error ()`. -/
def findChildren (e : TreeExtractor) (obj : List (String × JVal)) :
    Except Unit (List JVal) :=
  go e.childrenKeys
where
  go : List String → Except Unit (List JVal)
  | [] => .ok []
  | key :: rest =>
    match jlookup obj key with
    | some .null => .error ()
    | some (.arr children) => if children.isEmpty then go rest else .ok children
    | some _ => go rest
    | none => go rest

/-- One synthetic grandchild of the nested-object branch of
`extractTree` (`"key: value"`; `null` fields are skipped). -/
def syntheticScalarChild (nestedKey : String) (nestedValue : JVal) :
    Option SimplifiedNode :=
  match nestedValue with
  | .null => none
  | .str s => some ⟨nestedKey ++ ": " ++ s, []⟩
  | v => some ⟨nestedKey ++ ": " ++ govFmt v, []⟩

/-- One synthetic grandchild of the array branch of `extractTree`
(`"[i]: value"`; `null` items are skipped). -/
def syntheticArrayChild (i : Nat) (item : JVal) : Option SimplifiedNode :=
  match item with
  | .null => none
  | .str s => some ⟨"[" ++ toString i ++ "]: " ++ s, []⟩
  | v => some ⟨"[" ++ toString i ++ "]: " ++ govFmt v, []⟩

/-- The no-standard-children fallback of `extractTree`: every key
(except one equal to the found title string, and `null` values) with a
nested object or array becomes a synthetic child. -/
def syntheticChildren (obj : List (String × JVal)) (title : String) :
    List SimplifiedNode :=
  obj.filterMap fun kv =>
    if kv.1 = title then none
    else
      match kv.2 with
      | .null => none
      | .obj v =>
        let nested := v.filterMap fun nkv => syntheticScalarChild nkv.1 nkv.2
        if nested.isEmpty then none else some ⟨kv.1 ++ " (Object)", nested⟩
      | .arr v =>
        let items := v.enum.filterMap fun p => syntheticArrayChild p.1 p.2
        if items.isEmpty then none
        else some ⟨kv.1 ++ " (Array - " ++ toString v.length ++ " items)", items⟩
      | _ => none

mutual

/-- Go `extractTree`: depth-guarded recursive extraction with the
configured title/children keys and the synthetic-children fallback.  A
node is returned iff it has a title or at least one child. -/
def extractTree (e : TreeExtractor) (obj : List (String × JVal))
    (depth : Nat) : Except Unit (Option SimplifiedNode) :=
  if h : depth > e.maxDepth then .ok none
  else
    let title := findTitle e obj
    match findChildren e obj with
    | .error u => .error u
    | .ok children =>
      match extractKids e children (depth + 1) with
      | .error u => .error u
      | .ok kids =>
        let kids2 := if kids.isEmpty then syntheticChildren obj title else kids
        if title ≠ "" || !kids2.isEmpty then .ok (some ⟨title, kids2⟩)
        else .ok none
termination_by (e.maxDepth + 2 - depth, 0)
decreasing_by
  apply Prod.Lex.left
  omega

/-- The children loop of `extractTree`: object elements are recursively
extracted (at the already-incremented depth), others skipped. -/
def extractKids (e : TreeExtractor) (cs : List JVal) (depth : Nat) :
    Except Unit (List SimplifiedNode) :=
  match cs with
  | [] => .ok []
  | c :: rest =>
    match c with
    | .obj co =>
      match extractTree e co depth with
      | .error u => .error u
      | .ok r =>
        match extractKids e rest depth with
        | .error u => .error u
        | .ok others => .ok (match r with | some n => n :: others | none => others)
    | _ => extractKids e rest depth
termination_by (e.maxDepth + 2 - depth, cs.length + 1)
decreasing_by
  all_goals apply Prod.Lex.right
  all_goals simp only [List.length_cons]
  all_goals omega

end

/-- The array branch of `tryStandardTreeStructure`: each object element
is extracted at depth 0, non-nil results collected. -/
def standardRoots (e : TreeExtractor) : List JVal → Except Unit (List SimplifiedNode)
  | [] => .ok []
  | item :: rest =>
    match item with
    | .obj itemMap =>
      match extractTree e itemMap 0 with
      | .error u => .error u
      | .ok r =>
        match standardRoots e rest with
        | .error u => .error u
        | .ok others => .ok (match r with | some n => n :: others | none => others)
    | _ => standardRoots e rest

/-- Go `tryStandardTreeStructure`: object input is extracted directly
(single node), array input element-wise (root list), anything else is
no match. -/
def tryStandardTreeStructure (e : TreeExtractor) (data : JVal) :
    Except Unit (Option ResultVal) :=
  match data with
  | .obj dataMap =>
    match extractTree e dataMap 0 with
    | .error u => .error u
    | .ok (some node) => .ok (some (.single node))
    | .ok none => .ok none
  | .arr dataArray =>
    match standardRoots e dataArray with
    | .error u => .error u
    | .ok roots => .ok (if roots.isEmpty then none else some (.multi roots))
  | _ => .ok none

/-! ## Generic business-text structure (`createGenericBusinessTextStructure`) -/

/-- The filter-and-deduplicate loop over collected texts (`seen` map,
first occurrence kept). -/
def filterDedup (seen : List String) : List String → List String
  | [] => []
  | t :: ts =>
    if isBusinessText t && !(seen.contains t) then t :: filterDedup (t :: seen) ts
    else filterDedup seen ts

/-- The title-selection loop: index of the first text of maximal rune
length (strict `>` comparison keeps the earliest maximum). -/
def titleIndexGo (l : List String) : Nat :=
  (l.enum.foldl
    (fun best p => if runeLen p.2 > best.2 then (p.1, runeLen p.2) else best)
    (0, runeLen (l.headD ""))).1

/-- One pass of the inner `j` loop of the length sort: carries the
value currently at position `i`, swapping whenever a longer element is
found. -/
def bubbleInner (x : String) : List String → String × List String
  | [] => (x, [])
  | y :: ys =>
    if runeLen x < runeLen y then
      let p := bubbleInner y ys
      (p.1, x :: p.2)
    else
      let p := bubbleInner x ys
      (p.1, y :: p.2)

theorem bubbleInner_length (x : String) (l : List String) :
    (bubbleInner x l).2.length = l.length := by
  induction l generalizing x with
  | nil => simp [bubbleInner]
  | cons y ys ih =>
    simp only [bubbleInner]
    split <;> simp [ih]

/-- The double-loop descending-length sort of `createGenericBusinessTextStructure`
(`for i ...; for j := i+1 ...; if len(a[i]) < len(a[j]) swap`). -/
def sortByRuneLenDesc : List String → List String
  | [] => []
  | x :: xs =>
    let p := bubbleInner x xs
    p.1 :: sortByRuneLenDesc p.2
termination_by l => l.length
decreasing_by
  simp only [bubbleInner_length]
  simp

/-- Go `createGenericBusinessTextStructure`: flatten all classified
business texts; longest becomes the title, the rest (length-sorted
descending) become leaf children; `"API Response"` when nothing was
found. -/
def createGenericBusinessTextStructure (data : JVal) : SimplifiedNode :=
  let texts := ExtractTextContent data
  let businessTexts := filterDedup [] texts
  if businessTexts.isEmpty then ⟨"API Response", []⟩
  else
    let ti := titleIndexGo businessTexts
    let title := businessTexts.getD ti ""
    let childTexts := businessTexts.enum.filterMap
      (fun p => if p.1 = ti then none else some p.2)
    let sorted := sortByRuneLenDesc childTexts
    ⟨title, sorted.map (fun t => ⟨t, []⟩)⟩

/-! ## Root candidate scorer (`selectBestBusinessRootNode`) -/

/-- The priority keywords of `selectBestBusinessRootNode` (first match
wins, `break` after one bonus). -/
def selectBestPriorityKeywords : List String := ["客户详情", "门店列表", "详情", "列表"]

/-- The avoid keywords of `selectBestBusinessRootNode` (each match
costs 50 points, no `break`). -/
def selectBestAvoidKeywords : List String := ["接口", "系统", "平台", "验证", "测试"]

/-- The per-candidate score of `selectBestBusinessRootNode`:
+100 for a priority keyword (at most once), −50 per avoid keyword,
+20 for having children, +10 for a 4–15 rune name. -/
def scoreBusinessRootNode (node : SimplifiedNode) : Int :=
  let nodeName := goToLower node.name
  let pScore : Int := if containsAny nodeName selectBestPriorityKeywords then 100 else 0
  let aScore : Int :=
    -50 * ((selectBestAvoidKeywords.filter (fun k => goContains nodeName k)).length : Int)
  let cScore : Int := if node.children.isEmpty then 0 else 20
  let lScore : Int := if 4 ≤ runeLen node.name && runeLen node.name ≤ 15 then 10 else 0
  pScore + aScore + cScore + lScore

/-- Go `selectBestBusinessRootNode`: highest score wins, ties broken by
input order (strict `>` keeps the earliest maximum). -/
def selectBestBusinessRootNode (nodes : List SimplifiedNode) : Option SimplifiedNode :=
  match nodes with
  | [] => none
  | n₀ :: rest => some (go n₀ (scoreBusinessRootNode n₀) rest)
where
  go (best : SimplifiedNode) (bestScore : Int) : List SimplifiedNode → SimplifiedNode
  | [] => best
  | n :: ns =>
    if scoreBusinessRootNode n > bestScore then go n (scoreBusinessRootNode n) ns
    else go best bestScore ns

/-! ## Pattern-specific recursive builder (`parseTestCaseMindNode`) -/

/-- Collects the valid business texts of a `richText` array and uses
the first as title (the richText pass of `parseTestCaseMindNode`). -/
def richTextTitle (currentData : List (String × JVal)) : String :=
  match jlookup currentData "richText" with
  | some (.arr richTextItems) =>
    let validTexts := richTextItems.filterMap fun item =>
      match item with
      | .obj richTextObj =>
        match jlookup richTextObj "text" with
        | some (.str t) => if t ≠ "" && isBusinessText t then some t else none
        | _ => none
      | _ => none
    validTexts.headD ""
  | _ => ""

mutual

/-- Go `parseTestCaseMindNode`: depth-guarded recursive builder for the
`{data:{text|richText}, children:[...]}` encoding.  Title resolution:
richText first, then the `text` field (business or UI-business), then —
for untitled nodes with children — multi-root dispatch at depth 0 (best
child via the scorer) or the `"未命名节点"` placeholder below depth 0. -/
def parseTestCaseMindNode (e : TreeExtractor) (nodeData : List (String × JVal))
    (depth : Nat) : Option SimplifiedNode :=
  if h : depth > e.maxDepth then none
  else
    match jlookup nodeData "data" with
    | some (.obj currentData) =>
      let richTitle := richTextTitle currentData
      let titleText : String :=
        if richTitle = "" then
          match jlookup currentData "text" with
          | some (.str t) =>
            if t ≠ "" && (isBusinessText t || isUIBusinessText t depth) then t else ""
          | _ => ""
        else richTitle
      if titleText = "" then
        match jlookup nodeData "children" with
        | some (.arr childrenArray) =>
          if childrenArray.isEmpty then none
          else if depth = 0 then
            selectBestBusinessRootNode (ptcmChildren e childrenArray (depth + 1))
          else
            some ⟨"未命名节点", ptcmChildren e childrenArray (depth + 1)⟩
        | _ => none
      else
        match jlookup nodeData "children" with
        | some (.arr childrenArray) =>
          if childrenArray.isEmpty then some ⟨titleText, []⟩
          else some ⟨titleText, ptcmChildren e childrenArray (depth + 1)⟩
        | _ => some ⟨titleText, []⟩
    | _ => none
termination_by (e.maxDepth + 2 - depth, 0)
decreasing_by
  all_goals apply Prod.Lex.left
  all_goals omega

/-- The child loop shared by `parseTestCaseMindNode` (at `depth + 1`),
`parseTestCaseMindStructurePattern` (at depth 0) and
`parseMultiRootNode`: object elements built, nil results skipped. -/
def ptcmChildren (e : TreeExtractor) (cs : List JVal) (depth : Nat) :
    List SimplifiedNode :=
  match cs with
  | [] => []
  | c :: rest =>
    match c with
    | .obj childMap =>
      match parseTestCaseMindNode e childMap depth with
      | some n => n :: ptcmChildren e rest depth
      | none => ptcmChildren e rest depth
    | _ => ptcmChildren e rest depth
termination_by (e.maxDepth + 2 - depth, cs.length + 1)
decreasing_by
  all_goals apply Prod.Lex.right
  all_goals simp only [List.length_cons]
  all_goals omega

end

/-- Go `parseMultiRootNode` (children built at `depth + 1`). -/
def parseMultiRootNode (e : TreeExtractor) (childrenArray : List JVal)
    (depth : Nat) : Option ResultVal :=
  let validNodes := ptcmChildren e childrenArray (depth + 1)
  if validNodes.isEmpty then none else some (.multi validNodes)

/-- The repeated `children`-array guard of
`parseTestCaseMindStructurePattern` (`ok && len(childrenArray) > 0`). -/
def patternChildren (doc : List (String × JVal)) : Option (List JVal) :=
  match jlookup doc "children" with
  | some (.arr cs) => if cs.isEmpty then none else some cs
  | _ => none

/-- Go `parseTestCaseMindStructurePattern`: the三 sequential branches —
(1) with a `data` field, root build or per-child depth-0 multi-root,
(2) pure multi-root over `children`, (3) the original fallback ending
in `parseMultiRootNode` or the typed-nil return. -/
def parseTestCaseMindStructurePattern (e : TreeExtractor)
    (testCaseMindData : List (String × JVal)) : Option ResultVal :=
  let b1 : Option ResultVal :=
    if (jlookup testCaseMindData "data").isSome then
      match parseTestCaseMindNode e testCaseMindData 0 with
      | some rootNode => some (.multi [rootNode])
      | none =>
        match patternChildren testCaseMindData with
        | some cs =>
          let validNodes := ptcmChildren e cs 0
          if validNodes.isEmpty then none else some (.multi validNodes)
        | none => none
    else none
  match b1 with
  | some r => some r
  | none =>
    let b2 : Option ResultVal :=
      match patternChildren testCaseMindData with
      | some cs =>
        let validNodes := ptcmChildren e cs 0
        if validNodes.isEmpty then none else some (.multi validNodes)
      | none => none
    match b2 with
    | some r => some r
    | none =>
      match parseTestCaseMindNode e testCaseMindData 0 with
      | some result => some (.multi [result])
      | none =>
        match patternChildren testCaseMindData with
        | some cs => parseMultiRootNode e cs 0
        | none => some .nilPtr

/-! ## JSON decoding (the behavior of `encoding/json.Unmarshal` into
`interface{}`, needed by `Extract` and by the nested `TestCaseMind`
document unwrap).  Numbers are kept exactly as `Rat` (Go rounds to
`float64`; no claim inspects a numeric value). -/

/-- JSON whitespace (space, tab, newline, carriage return). -/
def isWsChar (c : Char) : Bool :=
  c = ' ' || c = '\t' || c = '\n' || c = '\r'

/-- Drops leading JSON whitespace. -/
def skipWs : List Char → List Char
  | [] => []
  | c :: cs => if isWsChar c then skipWs cs else c :: cs

/-- Hex digit value. -/
def hexVal (c : Char) : Option Nat :=
  if '0' ≤ c ∧ c ≤ '9' then some (c.toNat - 48)
  else if 'a' ≤ c ∧ c ≤ 'f' then some (c.toNat - 87)
  else if 'A' ≤ c ∧ c ≤ 'F' then some (c.toNat - 55)
  else none

/-- Four hex digits to a code unit. -/
def hex4 (a b c d : Char) : Option Nat :=
  match hexVal a, hexVal b, hexVal c, hexVal d with
  | some x, some y, some z, some w => some (((x * 16 + y) * 16 + z) * 16 + w)
  | _, _, _, _ => none

/-- Decimal digit test. -/
def isDigitChar (c : Char) : Bool := '0' ≤ c && c ≤ '9'

/-- Continuation of a `\uXXXX` escape whose code unit `n` is a high
surrogate: combine with a following `\uXXXX` low surrogate, else emit
U+FFFD and reprocess the rest (as Go does). -/
def unescapeLowSurrogate (n : Nat) (r : List Char) : Char × List Char :=
  match r with
  | e₁ :: e₂ :: g₁ :: g₂ :: g₃ :: g₄ :: r₂ =>
    if e₁ = '\\' ∧ e₂ = 'u' then
      match hex4 g₁ g₂ g₃ g₄ with
      | some m =>
        if 0xDC00 ≤ m ∧ m ≤ 0xDFFF then
          (Char.ofNat (0x10000 + (n - 0xD800) * 0x400 + (m - 0xDC00)), r₂)
        else (Char.ofNat 0xFFFD, r)
      | none => (Char.ofNat 0xFFFD, r)
    else (Char.ofNat 0xFFFD, r)
  | _ => (Char.ofNat 0xFFFD, r)

/-- One escape sequence (the characters after a backslash): standard
escapes and `\uXXXX` with surrogate-pair combination (lone surrogates
become U+FFFD, as in Go). -/
def unescapeSeq (l : List Char) : Option (Char × List Char) :=
  match l with
  | [] => none
  | c :: r =>
    if c = '"' then some ('"', r)
    else if c = '\\' then some ('\\', r)
    else if c = '/' then some ('/', r)
    else if c = 'b' then some (Char.ofNat 0x08, r)
    else if c = 'f' then some (Char.ofNat 0x0C, r)
    else if c = 'n' then some ('\n', r)
    else if c = 'r' then some ('\r', r)
    else if c = 't' then some ('\t', r)
    else if c = 'u' then
      match r with
      | h₁ :: h₂ :: h₃ :: h₄ :: r₁ =>
        match hex4 h₁ h₂ h₃ h₄ with
        | none => none
        | some n =>
          if 0xD800 ≤ n ∧ n ≤ 0xDBFF then
            some ((unescapeLowSurrogate n r₁).1, (unescapeLowSurrogate n r₁).2)
          else if 0xDC00 ≤ n ∧ n ≤ 0xDFFF then some (Char.ofNat 0xFFFD, r₁)
          else some (Char.ofNat n, r₁)
      | _ => none
    else none

/-- JSON string body (after the opening quote): raw control characters
rejected, escapes via `unescapeSeq`.  Fuelled (callers pass the
remaining length plus one; every step consumes at least one
character). -/
def parseStringBody : Nat → List Char → List Char → Option (String × List Char)
  | 0, _, _ => none
  | fuel + 1, acc, l =>
    match l with
    | [] => none
    | '"' :: rest => some (String.mk acc.reverse, rest)
    | '\\' :: rest =>
      match unescapeSeq rest with
      | some p => parseStringBody fuel (p.1 :: acc) p.2
      | none => none
    | c :: rest =>
      if c.toNat < 0x20 then none else parseStringBody fuel (c :: acc) rest

/-- Longest digit run. -/
def takeDigits : List Char → (List Char × List Char)
  | [] => ([], [])
  | c :: cs =>
    if isDigitChar c then
      let p := takeDigits cs
      (c :: p.1, p.2)
    else ([], c :: cs)

/-- Digit list to a natural number. -/
def digitsToNat (ds : List Char) : Nat :=
  ds.foldl (fun n c => n * 10 + (c.toNat - 48)) 0

/-- JSON number (RFC 8259 grammar: no leading zeros, mandatory digits
around `.` and after an exponent marker).  Exact rational value. -/
def parseNumber (l : List Char) : Option (Rat × List Char) :=
  let p := match l with
    | '-' :: r => (true, r)
    | _ => (false, l)
  let neg := p.1
  let l₁ := p.2
  match l₁ with
  | [] => none
  | c :: cs =>
    if ¬ isDigitChar c then none
    else
      let ip := if c = '0' then (([c] : List Char), cs) else takeDigits (c :: cs)
      if c = '0' && (match cs with | d :: _ => isDigitChar d | [] => false) then none
      else
        let fr : Option (List Char × List Char) :=
          match ip.2 with
          | '.' :: r₂ =>
            let q := takeDigits r₂
            if q.1.isEmpty then none else some (q.1, q.2)
          | _ => some ([], ip.2)
        match fr with
        | none => none
        | some (fracPart, r₂) =>
          let ex : Option (Int × List Char) :=
            match r₂ with
            | e :: r₃ =>
              if e = 'e' ∨ e = 'E' then
                let sg := match r₃ with
                  | '+' :: r₄ => (false, r₄)
                  | '-' :: r₄ => (true, r₄)
                  | _ => (false, r₃)
                let q := takeDigits sg.2
                if q.1.isEmpty then none
                else some
                  ((if sg.1 then -(digitsToNat q.1 : Int) else (digitsToNat q.1 : Int)), q.2)
              else some (0, r₂)
            | [] => some (0, [])
          match ex with
          | none => none
          | some (expVal, r₅) =>
            let mant : Int := (digitsToNat (ip.1 ++ fracPart) : Int)
            let mant : Int := if neg then -mant else mant
            let scale : Int := expVal - (fracPart.length : Int)
            some ((mant : Rat) * (10 : Rat) ^ scale, r₅)

/-- Go decodes duplicate object keys by map assignment: the last value
wins (replacement at the first occurrence keeps document order). -/
def objInsertGo (kvs : List (String × JVal)) (k : String) (v : JVal) :
    List (String × JVal) :=
  match kvs with
  | [] => [(k, v)]
  | (k₀, v₀) :: rest =>
    if k₀ = k then (k₀, v) :: rest else (k₀, v₀) :: objInsertGo rest k v

/-- The state of the JSON parser: a value, an object body (right after
`\x7b` or after a comma), or an array body, with the members / elements
accumulated so far. -/
inductive PJob where
  | val : PJob
  | objStart : PJob
  | objLoop : List (String × JVal) → PJob
  | arrStart : PJob
  | arrLoop : List JVal → PJob

/-- Fuelled JSON parser (the fuel bounds the number of parsing steps;
`parseJson` supplies twice the input length plus eight, which suffices
because at most every second step consumes no character). -/
def parseStep : Nat → PJob → List Char → Option (JVal × List Char)
  | 0, _, _ => none
  | fuel + 1, .val, l =>
    match skipWs l with
    | '\x7b' :: rest => parseStep fuel .objStart rest
    | '[' :: rest => parseStep fuel .arrStart rest
    | '"' :: rest =>
      match parseStringBody (rest.length + 1) [] rest with
      | some p => some (.str p.1, p.2)
      | none => none
    | 'n' :: 'u' :: 'l' :: 'l' :: rest => some (.null, rest)
    | 't' :: 'r' :: 'u' :: 'e' :: rest => some (.bool true, rest)
    | 'f' :: 'a' :: 'l' :: 's' :: 'e' :: rest => some (.bool false, rest)
    | l₂ =>
      match parseNumber l₂ with
      | some p => some (.num p.1, p.2)
      | none => none
  | fuel + 1, .objStart, l =>
    match skipWs l with
    | '\x7d' :: rest => some (.obj [], rest)
    | l₂ => parseStep fuel (.objLoop []) l₂
  | fuel + 1, .objLoop acc, l =>
    match skipWs l with
    | '"' :: rest =>
      match parseStringBody (rest.length + 1) [] rest with
      | none => none
      | some (key, r₁) =>
        match skipWs r₁ with
        | ':' :: r₂ =>
          match parseStep fuel .val r₂ with
          | none => none
          | some (v, r₃) =>
            match skipWs r₃ with
            | ',' :: r₄ => parseStep fuel (.objLoop (objInsertGo acc key v)) r₄
            | '\x7d' :: r₄ => some (.obj (objInsertGo acc key v), r₄)
            | _ => none
        | _ => none
    | _ => none
  | fuel + 1, .arrStart, l =>
    match skipWs l with
    | ']' :: rest => some (.arr [], rest)
    | l₂ => parseStep fuel (.arrLoop []) l₂
  | fuel + 1, .arrLoop acc, l =>
    match parseStep fuel .val l with
    | none => none
    | some (v, r₁) =>
      match skipWs r₁ with
      | ',' :: r₂ => parseStep fuel (.arrLoop (acc ++ [v])) r₂
      | ']' :: r₂ => some (.arr (acc ++ [v]), r₂)
      | _ => none

/-- The behavior of `json.Unmarshal(data, &rawData)` for an
`interface{}` target: one JSON value, whitespace around it, nothing
else. -/
def parseJson (s : String) : Option JVal :=
  match parseStep (2 * s.data.length + 8) .val s.data with
  | some (v, rest) => if (skipWs rest).isEmpty then some v else none
  | none => none

/-! ## Nested-document unwrap and pipeline assembly -/

/-- Go `parseTestCaseMindStructureDirect`: locate `data.TestCaseMind`
(a string), decode it as a JSON object, and run the pattern builder.
Absent/ill-typed fields, empty string, decode failure, or a non-object
document all yield nil (no match). -/
def parseTestCaseMindStructureDirect (e : TreeExtractor) (data : JVal) :
    Option ResultVal :=
  match data with
  | .obj dataMap =>
    match jlookup dataMap "data" with
    | some (.obj dataMap₂) =>
      match jlookup dataMap₂ "TestCaseMind" with
      | some (.str testCaseMindStr) =>
        if testCaseMindStr = "" then none
        else
          match parseJson testCaseMindStr with
          | some (.obj testCaseMindData) =>
            parseTestCaseMindStructurePattern e testCaseMindData
          | _ => none
      | _ => none
    | _ => none
  | _ => none

/-- Go `createDefaultStructure`: TestCaseMind pattern first, then the
standard tree walk, then the generic business-text fallback (which
always yields a node). -/
def createDefaultStructure (e : TreeExtractor) (rawData : JVal) :
    Except Unit (Option ResultVal) :=
  match parseTestCaseMindStructureDirect e rawData with
  | some r => .ok (some r)
  | none =>
    match tryStandardTreeStructure e rawData with
    | .error u => .error u
    | .ok (some r) => .ok (some r)
    | .ok none => .ok (some (.single (createGenericBusinessTextStructure rawData)))

/-- Go `Extract` on an already-decoded value: `createDefaultStructure`,
with the nil result mapped to the `"未找到有效的树状结构"` error and a
propagated `findChildren` panic.  (`json.MarshalIndent` on a
`SimplifiedNode` value cannot fail; the structural result stands in for
the serialized bytes.) -/
def Extract (e : TreeExtractor) (rawData : JVal) : Except ExtractErr ResultVal :=
  match createDefaultStructure e rawData with
  | .error _ => .error .goPanic
  | .ok none => .error .noStructure
  | .ok (some r) => .ok r

/-- Go `Extract` from raw bytes: `json.Unmarshal` then the extraction
pipeline. -/
def ExtractBytes (e : TreeExtractor) (input : String) :
    Except ExtractErr ResultVal :=
  match parseJson input with
  | none => .error .decodeError
  | some v => Extract e v

/-! ## Step lemmas for the well-founded recursions (used to evaluate
the extractors on concrete inputs) -/

theorem ptcmChildren_nil (e : TreeExtractor) (d : Nat) : ptcmChildren e [] d = [] := by
  unfold ptcmChildren
  rfl

theorem ptcmChildren_cons_obj (e : TreeExtractor) (o : List (String × JVal))
    (cs : List JVal) (d : Nat) :
    ptcmChildren e (.obj o :: cs) d =
      (match parseTestCaseMindNode e o d with
       | some n => n :: ptcmChildren e cs d
       | none => ptcmChildren e cs d) := by
  conv_lhs => unfold ptcmChildren

theorem extractKids_nil (e : TreeExtractor) (d : Nat) : extractKids e [] d = .ok [] := by
  unfold extractKids
  rfl

theorem extractKids_cons_obj (e : TreeExtractor) (o : List (String × JVal))
    (cs : List JVal) (d : Nat) :
    extractKids e (.obj o :: cs) d =
      (match extractTree e o d with
       | .error u => .error u
       | .ok r =>
         match extractKids e cs d with
         | .error u => .error u
         | .ok others => .ok (match r with | some n => n :: others | none => others)) := by
  conv_lhs => unfold extractKids

/-- Assembly helper: a TestCaseMind pattern match determines the
`Extract` result. -/
theorem Extract_of_direct (e : TreeExtractor) (v : JVal) (r : ResultVal)
    (h : parseTestCaseMindStructureDirect e v = some r) : Extract e v = .ok r := by
  unfold Extract createDefaultStructure
  rw [h]

/-- Assembly helper: with no pattern match, a standard-tree result
determines the `Extract` result. -/
theorem Extract_of_standard (e : TreeExtractor) (v : JVal) (r : ResultVal)
    (hd : parseTestCaseMindStructureDirect e v = none)
    (hs : tryStandardTreeStructure e v = .ok (some r)) : Extract e v = .ok r := by
  unfold Extract createDefaultStructure
  rw [hd, hs]

/-- Assembly helper: with neither pattern nor standard match, `Extract`
returns the generic business-text structure. -/
theorem Extract_of_generic (e : TreeExtractor) (v : JVal)
    (hd : parseTestCaseMindStructureDirect e v = none)
    (hs : tryStandardTreeStructure e v = .ok none) :
    Extract e v = .ok (.single (createGenericBusinessTextStructure v)) := by
  unfold Extract createDefaultStructure
  rw [hd, hs]

/-- Assembly helper: a `findChildren` panic in the standard walk
propagates out of `Extract`. -/
theorem Extract_of_panic (e : TreeExtractor) (v : JVal) (u : Unit)
    (hd : parseTestCaseMindStructureDirect e v = none)
    (hs : tryStandardTreeStructure e v = .error u) : Extract e v = .error .goPanic := by
  unfold Extract createDefaultStructure
  rw [hd, hs]

/-- Assembly helper: `ExtractBytes` after a successful decode. -/
theorem ExtractBytes_eq (e : TreeExtractor) (s : String) (v : JVal)
    (hp : parseJson s = some v) : ExtractBytes e s = Extract e v := by
  unfold ExtractBytes
  rw [hp]

/-! ## Configurations and concrete inputs used by the claims -/

/-- The default extractor (`New` with empty key lists). -/
def extractorDefault : TreeExtractor := TreeExtractor.new [] []

/-- The claim C1 input bytes: a `data.TestCaseMind` field holding an
escaped JSON document with root text `客户详情-门店列表` and one child
`门店搜索` with empty children. -/
def c1Input : String :=
  "\x7b\"data\":\x7b\"TestCaseMind\":\"\x7b\\\"data\\\":\x7b\\\"text\\\":\\\"客户详情-门店列表\\\"\x7d,\\\"children\\\":[\x7b\\\"data\\\":\x7b\\\"text\\\":\\\"门店搜索\\\"\x7d,\\\"children\\\":[]\x7d]\x7d\"\x7d\x7d"

/-- The decoded nested TestCaseMind document string of `c1Input`. -/
def c1NestedStr : String :=
  "\x7b\"data\":\x7b\"text\":\"客户详情-门店列表\"\x7d,\"children\":[\x7b\"data\":\x7b\"text\":\"门店搜索\"\x7d,\"children\":[]\x7d]\x7d"

/-- The decoded child node of the nested document of `c1Input`. -/
def c1ChildObj : List (String × JVal) :=
  [("data", .obj [("text", .str "门店搜索")]), ("children", .arr [])]

/-- The decoded nested document of `c1Input`. -/
def c1Doc : List (String × JVal) :=
  [("data", .obj [("text", .str "客户详情-门店列表")]),
   ("children", .arr [.obj c1ChildObj])]

set_option maxRecDepth 16384 in
/-- C1: for the `{"data":{"TestCaseMind":"<escaped document>"}}` input
with root text `客户详情-门店列表` and one child `门店搜索`, `Extract`
succeeds: the nested string is decoded, both titles classify as
business text, and the single root is wrapped in a one-element array
`[{"name":"客户详情-门店列表","children":[{"name":"门店搜索","children":[]}]}]`. -/
theorem c1_nested_testcasemind_extract :
    ExtractBytes extractorDefault c1Input =
      .ok (.multi [⟨"客户详情-门店列表", [⟨"门店搜索", []⟩]⟩]) := by
  have hchild : parseTestCaseMindNode extractorDefault c1ChildObj 1 =
      some ⟨"门店搜索", []⟩ := by
    unfold parseTestCaseMindNode
    rfl
  have hkids : ptcmChildren extractorDefault [.obj c1ChildObj] 1 =
      [⟨"门店搜索", []⟩] := by
    rw [ptcmChildren_cons_obj, hchild, ptcmChildren_nil]
  have hroot : parseTestCaseMindNode extractorDefault c1Doc 0 =
      some ⟨"客户详情-门店列表", [⟨"门店搜索", []⟩]⟩ := by
    have hstep : parseTestCaseMindNode extractorDefault c1Doc 0 =
        some ⟨"客户详情-门店列表", ptcmChildren extractorDefault [.obj c1ChildObj] 1⟩ := by
      unfold parseTestCaseMindNode
      rfl
    rw [hstep, hkids]
  have hpat : parseTestCaseMindStructurePattern extractorDefault c1Doc =
      some (.multi [⟨"客户详情-门店列表", [⟨"门店搜索", []⟩]⟩]) := by
    unfold parseTestCaseMindStructurePattern
    rw [hroot]
    rfl
  have hparse : parseJson c1Input =
      some (.obj [("data", .obj [("TestCaseMind", .str c1NestedStr)])]) := rfl
  have hdir : parseTestCaseMindStructureDirect extractorDefault
      (.obj [("data", .obj [("TestCaseMind", .str c1NestedStr)])]) =
      parseTestCaseMindStructurePattern extractorDefault c1Doc := rfl
  rw [ExtractBytes_eq extractorDefault c1Input _ hparse]
  exact Extract_of_direct extractorDefault _ _ (hdir.trans hpat)

/-- Step lemma for `extractTree` in the normal (non-panicking) case. -/
theorem extractTree_step (e : TreeExtractor) (obj : List (String × JVal)) (depth : Nat)
    (hd : ¬ depth > e.maxDepth) (children : List JVal)
    (hc : findChildren e obj = .ok children) (kids : List SimplifiedNode)
    (hk : extractKids e children (depth + 1) = .ok kids) :
    extractTree e obj depth =
      (let title := findTitle e obj
       let kids2 := if kids.isEmpty then syntheticChildren obj title else kids
       if title ≠ "" || !kids2.isEmpty then .ok (some ⟨title, kids2⟩) else .ok none) := by
  unfold extractTree
  rw [dif_neg hd]
  simp only [hc, hk]

/-- Step lemma for `extractTree` when `findChildren` panics. -/
theorem extractTree_panic (e : TreeExtractor) (obj : List (String × JVal)) (depth : Nat)
    (hd : ¬ depth > e.maxDepth) (u : Unit) (hc : findChildren e obj = .error u) :
    extractTree e obj depth = .error u := by
  unfold extractTree
  rw [dif_neg hd, hc]

/-- The claim C7 extractor configuration
(`titleKeys=["title","name"]`, `childrenKeys=["items","nodes"]`). -/
def extractor7 : TreeExtractor := TreeExtractor.new ["title", "name"] ["items", "nodes"]

/-- The claim C7 input bytes. -/
def c7Input : String :=
  "\x7b\"title\":\"Project A\",\"items\":[\x7b\"name\":\"Feature 1\",\"nodes\":[]\x7d]\x7d"

/-- Decoded inner object of `c7Input`. -/
def c7Inner : List (String × JVal) := [("name", .str "Feature 1"), ("nodes", .arr [])]

/-- Decoded top object of `c7Input`. -/
def c7Top : List (String × JVal) :=
  [("title", .str "Project A"), ("items", .arr [.obj c7Inner])]

/-- Shared evaluation: on the C7 input the generic path produces the
single bare object, not an array. -/
theorem c7_extract_eval :
    ExtractBytes extractor7 c7Input =
      .ok (.single ⟨"Project A", [⟨"Feature 1", []⟩]⟩) := by
  have hinner : extractTree extractor7 c7Inner 1 = .ok (some ⟨"Feature 1", []⟩) := by
    rw [extractTree_step extractor7 c7Inner 1 (by decide) [] rfl [] (extractKids_nil _ _)]
    rfl
  have hkids : extractKids extractor7 [.obj c7Inner] 1 = .ok [⟨"Feature 1", []⟩] := by
    rw [extractKids_cons_obj, hinner, extractKids_nil]
  have htop : extractTree extractor7 c7Top 0 =
      .ok (some ⟨"Project A", [⟨"Feature 1", []⟩]⟩) := by
    rw [extractTree_step extractor7 c7Top 0 (by decide) [.obj c7Inner] rfl
      [⟨"Feature 1", []⟩] hkids]
    rfl
  have hstd : tryStandardTreeStructure extractor7 (.obj c7Top) =
      .ok (some (.single ⟨"Project A", [⟨"Feature 1", []⟩]⟩)) := by
    unfold tryStandardTreeStructure
    simp only [htop]
  rw [ExtractBytes_eq extractor7 c7Input (.obj c7Top) rfl]
  exact Extract_of_standard extractor7 _ _ rfl hstd

/-- C7 counterexample: the claim expects the one-element-array output
`[{"name":"Project A",...}]`, but `Extract` returns the bare single
object (only the TestCaseMind path wraps single roots in an array). -/
theorem c7_counterexample :
    ExtractBytes extractor7 c7Input ≠
      .ok (.multi [⟨"Project A", [⟨"Feature 1", []⟩]⟩]) := by
  rw [c7_extract_eval]
  intro h
  injection h with h₂
  cases h₂

/-- C7 (amended): for input
`{"title":"Project A","items":[{"name":"Feature 1","nodes":[]}]}` with
`titleKeys=["title","name"]`, `childrenKeys=["items","nodes"]`,
`Extract` produces the single object
`{"name":"Project A","children":[{"name":"Feature 1","children":[]}]}`
(the generic-path single root is emitted bare, not wrapped in an
array). -/
theorem c7_generic_single_object :
    ExtractBytes extractor7 c7Input =
      .ok (.single ⟨"Project A", [⟨"Feature 1", []⟩]⟩) := c7_extract_eval

/-- The claim C9 input bytes. -/
def c9Input : String := "\x7b\"children\":[\x7b\"name\":\"x\"\x7d]\x7d"

/-- Decoded inner object of `c9Input`. -/
def c9Inner : List (String × JVal) := [("name", .str "x")]

/-- Decoded top object of `c9Input`. -/
def c9Top : List (String × JVal) := [("children", .arr [.obj c9Inner])]

/-- C9 counterexample: for `{"children":[{"name":"x"}]}` the final
output is the single node `{"name":"","children":[{"name":"x",...}]}`
— a node with an EMPTY name is emitted (`extractTree` keeps any node
that has children, titled or not), contradicting the claim that no
empty-named node ever reaches the output. -/
theorem c9_counterexample :
    ExtractBytes extractorDefault c9Input =
      .ok (.single ⟨"", [⟨"x", []⟩]⟩) := by
  have hinner : extractTree extractorDefault c9Inner 1 = .ok (some ⟨"x", []⟩) := by
    rw [extractTree_step extractorDefault c9Inner 1 (by decide) [] rfl []
      (extractKids_nil _ _)]
    rfl
  have hkids : extractKids extractorDefault [.obj c9Inner] 1 = .ok [⟨"x", []⟩] := by
    rw [extractKids_cons_obj, hinner, extractKids_nil]
  have htop : extractTree extractorDefault c9Top 0 = .ok (some ⟨"", [⟨"x", []⟩]⟩) := by
    rw [extractTree_step extractorDefault c9Top 0 (by decide) [.obj c9Inner] rfl
      [⟨"x", []⟩] hkids]
    rfl
  have hstd : tryStandardTreeStructure extractorDefault (.obj c9Top) =
      .ok (some (.single ⟨"", [⟨"x", []⟩]⟩)) := by
    unfold tryStandardTreeStructure
    simp only [htop]
  rw [ExtractBytes_eq extractorDefault c9Input (.obj c9Top) rfl]
  exact Extract_of_standard extractorDefault _ _ rfl hstd

/-- C10: at the valid JSON input `{"children":null}` the code does not
return — `findChildren` reaches `reflect.TypeOf(value).Kind()` on a nil
interface value and panics, so `Extract` crashes instead of returning
without error. -/
theorem c10_children_null_panics :
    ExtractBytes extractorDefault "\x7b\"children\":null\x7d" = .error .goPanic := by
  have htree : extractTree extractorDefault [("children", .null)] 0 = .error () :=
    extractTree_panic extractorDefault _ 0 (by decide) () rfl
  have hstd : tryStandardTreeStructure extractorDefault (.obj [("children", .null)]) =
      .error () := by
    unfold tryStandardTreeStructure
    simp only [htree]
  rw [ExtractBytes_eq extractorDefault "\x7b\"children\":null\x7d"
    (.obj [("children", .null)]) rfl]
  exact Extract_of_panic extractorDefault _ () rfl hstd

/-- Evaluation helper: the key loop of `ExtractTextContent` on an empty
object. -/
theorem etcEntries_nil : etcEntries [] = [] := by
  unfold etcEntries
  rfl

/-- Evaluation helper: no text is collected from the empty object. -/
theorem ExtractTextContent_obj_nil : ExtractTextContent (.obj []) = [] := by
  unfold ExtractTextContent
  rw [etcEntries_nil]
  rfl

/-- C5 counterexample: the empty object `{}` has no recognizable
structure (pattern and standard walks both fail) and no classifiable
text, yet the call SUCCEEDS with the default node `"API Response"`
instead of failing with the no-structure error. -/
theorem c5_counterexample :
    parseTestCaseMindStructureDirect extractorDefault (.obj []) = none ∧
    tryStandardTreeStructure extractorDefault (.obj []) = .ok none ∧
    ExtractTextContent (.obj []) = [] ∧
    ExtractBytes extractorDefault "\x7b\x7d" = .ok (.single ⟨"API Response", []⟩) := by
  have hvoid : extractTree extractorDefault [] 0 = .ok none := by
    rw [extractTree_step extractorDefault [] 0 (by decide) [] rfl [] (extractKids_nil _ _)]
    rfl
  have hstd : tryStandardTreeStructure extractorDefault (.obj []) = .ok none := by
    unfold tryStandardTreeStructure
    simp only [hvoid]
  have hgen : createGenericBusinessTextStructure (.obj []) = ⟨"API Response", []⟩ := by
    unfold createGenericBusinessTextStructure
    rw [ExtractTextContent_obj_nil]
    rfl
  refine ⟨rfl, hstd, ExtractTextContent_obj_nil, ?_⟩
  rw [ExtractBytes_eq extractorDefault "\x7b\x7d" (.obj []) rfl]
  rw [Extract_of_generic extractorDefault (.obj []) rfl hstd, hgen]

/-- Helper: `createDefaultStructure` never returns Go `nil` — the
generic business-text fallback always produces a node. -/
theorem createDefaultStructure_ne_none (e : TreeExtractor) (v : JVal) :
    createDefaultStructure e v ≠ .ok none := by
  intro h
  unfold createDefaultStructure at h
  split at h
  · simp at h
  · split at h <;> simp at h

/-- C5 (amended): the last-resort fallback always yields a node (the
default `"API Response"` when no business text exists), so for every
decoded payload the `"未找到有效的树状结构"` (NoStructureFound) error
is unreachable — `Extract` either succeeds or panics, and never
surfaces that error. -/
theorem c5_no_structure_unreachable (e : TreeExtractor) (v : JVal) :
    Extract e v ≠ .error .noStructure := by
  intro h
  unfold Extract at h
  split at h
  · simp at h
  · rename_i heq
    exact createDefaultStructure_ne_none e v heq
  · simp at h

/-- C2 grandchild: `data.text = "zz"` (not business text), no children. -/
def c2GrandObj : List (String × JVal) :=
  [("data", .obj [("text", .str "zz")]), ("children", .arr [])]

/-- C2 child: empty `data`, one (invalid) grandchild. -/
def c2ChildObj : List (String × JVal) :=
  [("data", .obj []), ("children", .arr [.obj c2GrandObj])]

/-- C2 document: no `data` field, one child. -/
def c2Doc : List (String × JVal) := [("children", .arr [.obj c2ChildObj])]

/-- Evaluation helper: the C2 document has no usable depth-0 root. -/
theorem c2RootNone : parseTestCaseMindNode extractorDefault c2Doc 0 = none := by
  unfold parseTestCaseMindNode
  rfl

/-- Evaluation helper: the C2 grandchild builds to nil at depth 1. -/
theorem c2GrandNone₁ : parseTestCaseMindNode extractorDefault c2GrandObj (0 + 1) = none := by
  unfold parseTestCaseMindNode
  rfl

/-- Evaluation helper: the C2 grandchild builds to nil at depth 2. -/
theorem c2GrandNone₂ : parseTestCaseMindNode extractorDefault c2GrandObj (0 + 1 + 1) = none := by
  unfold parseTestCaseMindNode
  rfl

/-- Evaluation helper: the C2 child's children build to nothing at depth 1. -/
theorem c2Kids₁ : ptcmChildren extractorDefault [.obj c2GrandObj] (0 + 1) = [] := by
  rw [ptcmChildren_cons_obj, c2GrandNone₁, ptcmChildren_nil]

/-- Evaluation helper: the C2 child's children build to nothing at depth 2. -/
theorem c2Kids₂ : ptcmChildren extractorDefault [.obj c2GrandObj] (0 + 1 + 1) = [] := by
  rw [ptcmChildren_cons_obj, c2GrandNone₂, ptcmChildren_nil]

/-- Evaluation helper: the C2 child builds to nil at depth 0 (the
depth-0 multi-root dispatch finds no valid grandchild). -/
theorem c2ChildNone₀ : parseTestCaseMindNode extractorDefault c2ChildObj 0 = none := by
  have hstep : parseTestCaseMindNode extractorDefault c2ChildObj 0 =
      selectBestBusinessRootNode (ptcmChildren extractorDefault [.obj c2GrandObj] (0 + 1)) := by
    unfold parseTestCaseMindNode
    rfl
  rw [hstep, c2Kids₁]
  rfl

/-- Evaluation helper: the C2 child builds to the placeholder node at
depth 1 (an untitled node with children below the root gets the
`"未命名节点"` name). -/
theorem c2ChildSome₁ :
    parseTestCaseMindNode extractorDefault c2ChildObj (0 + 1) = some ⟨"未命名节点", []⟩ := by
  have hstep : parseTestCaseMindNode extractorDefault c2ChildObj (0 + 1) =
      some ⟨"未命名节点", ptcmChildren extractorDefault [.obj c2GrandObj] (0 + 1 + 1)⟩ := by
    unfold parseTestCaseMindNode
    rfl
  rw [hstep, c2Kids₂]

/-- Evaluation helper: the C2 top-level children build to nothing at
depth 0. -/
theorem c2Valid₀ : ptcmChildren extractorDefault [.obj c2ChildObj] 0 = [] := by
  rw [ptcmChildren_cons_obj, c2ChildNone₀, ptcmChildren_nil]

/-- Evaluation helper: the C2 top-level children build to the
placeholder root at depth 1. -/
theorem c2Valid₁ :
    ptcmChildren extractorDefault [.obj c2ChildObj] (0 + 1) = [⟨"未命名节点", []⟩] := by
  rw [ptcmChildren_cons_obj, c2ChildSome₁, ptcmChildren_nil]

/-- Evaluation helper: the `children` guard of the C2 document. -/
theorem c2PatternChildren : patternChildren c2Doc = some [.obj c2ChildObj] := rfl

/-- C2 counterexample: on `c2Doc` the depth-0 node yields none and
every top-level child independently built at depth 0 also yields none,
so by the claim the pattern's final root list would be empty — but
`parseTestCaseMindStructurePattern` still returns the non-empty root
list `[未命名节点]`, produced by a second pass that rebuilds the
children at depth 1 (`parseMultiRootNode`). -/
theorem c2_counterexample :
    parseTestCaseMindNode extractorDefault c2Doc 0 = none ∧
    ptcmChildren extractorDefault [.obj c2ChildObj] 0 = [] ∧
    parseTestCaseMindStructurePattern extractorDefault c2Doc =
      some (.multi [⟨"未命名节点", []⟩]) := by
  refine ⟨c2RootNone, c2Valid₀, ?_⟩
  unfold parseTestCaseMindStructurePattern parseMultiRootNode
  simp only [c2RootNone, c2PatternChildren, c2Valid₀, c2Valid₁]
  rfl

/-- C2 (amended): when the depth-0 node yields none and the top-level
`children` array is non-empty, the roots are the nodes built per child
at depth 0 when at least one such node exists; if ALL children build to
none at depth 0, the children are rebuilt at depth 1 (where untitled
nodes with children receive the placeholder name) and those results
form the roots; only if both passes fail is the document unmatched. -/
theorem c2_multi_root_fallback (e : TreeExtractor) (doc : List (String × JVal))
    (cs : List JVal)
    (h₀ : parseTestCaseMindNode e doc 0 = none)
    (h₁ : patternChildren doc = some cs) :
    parseTestCaseMindStructurePattern e doc =
      (if (ptcmChildren e cs 0).isEmpty then
         (if (ptcmChildren e cs 1).isEmpty then none
          else some (.multi (ptcmChildren e cs 1)))
       else some (.multi (ptcmChildren e cs 0))) := by
  unfold parseTestCaseMindStructurePattern parseMultiRootNode
  simp only [h₀, h₁]
  cases hjd : jlookup doc "data" with
  | none =>
    simp only [hjd, Option.isSome_none, Bool.false_eq_true, if_false]
    split <;> rename_i heq <;> split_ifs at heq ⊢ <;> simp_all
  | some v =>
    simp only [hjd, Option.isSome_some, if_true]
    split <;> rename_i heq <;> split_ifs at heq ⊢ <;> simp_all

/-- C2 witness: the amended statement applied to the concrete `c2Doc`. -/
theorem c2_multi_root_fallback_witness :
    parseTestCaseMindStructurePattern extractorDefault c2Doc =
      (if (ptcmChildren extractorDefault [.obj c2ChildObj] 0).isEmpty then
         (if (ptcmChildren extractorDefault [.obj c2ChildObj] 1).isEmpty then none
          else some (.multi (ptcmChildren extractorDefault [.obj c2ChildObj] 1)))
       else some (.multi (ptcmChildren extractorDefault [.obj c2ChildObj] 0))) :=
  c2_multi_root_fallback extractorDefault c2Doc [.obj c2ChildObj]
    (by unfold parseTestCaseMindNode; rfl) rfl

/-! ## The output invariant of claim C9: every emitted node has a
non-empty name or at least one child, recursively. -/

mutual

/-- A node is good iff it has a non-empty name or a non-empty child
list, and all children are good. -/
def goodNode : SimplifiedNode → Bool
  | ⟨nm, cs⟩ => (decide (nm ≠ "") || !cs.isEmpty) && goodNodes cs

/-- All nodes of a list are good. -/
def goodNodes : List SimplifiedNode → Bool
  | [] => true
  | c :: cs => goodNode c && goodNodes cs

end

/-- A result value is good iff all nodes it carries are good. -/
def goodRes : ResultVal → Bool
  | .single n => goodNode n
  | .multi ns => goodNodes ns
  | .nilPtr => true

theorem goodNode_def (nm : String) (cs : List SimplifiedNode) :
    goodNode ⟨nm, cs⟩ = ((decide (nm ≠ "") || !cs.isEmpty) && goodNodes cs) := by
  unfold goodNode
  rfl

theorem goodNodes_nil : goodNodes [] = true := by
  unfold goodNodes
  rfl

theorem goodNodes_cons (c : SimplifiedNode) (cs : List SimplifiedNode) :
    goodNodes (c :: cs) = (goodNode c && goodNodes cs) := by
  conv_lhs => unfold goodNodes

theorem goodNodes_of_forall {ns : List SimplifiedNode}
    (h : ∀ n ∈ ns, goodNode n = true) : goodNodes ns = true := by
  induction ns with
  | nil => exact goodNodes_nil
  | cons c cs ih =>
    rw [goodNodes_cons]
    simp only [Bool.and_eq_true]
    exact ⟨h c (by simp), ih (fun n hn => h n (by simp [hn]))⟩

theorem forall_of_goodNodes {ns : List SimplifiedNode}
    (h : goodNodes ns = true) : ∀ n ∈ ns, goodNode n = true := by
  induction ns with
  | nil => simp
  | cons c cs ih =>
    rw [goodNodes_cons] at h
    simp only [Bool.and_eq_true] at h
    intro n hn
    rcases List.mem_cons.mp hn with h₁ | h₂
    · exact h₁ ▸ h.1
    · exact ih h.2 n h₂

/-- A node produced by a leaf name (non-empty) is good. -/
theorem goodNode_leaf {nm : String} (h : nm ≠ "") : goodNode ⟨nm, []⟩ = true := by
  rw [goodNode_def, goodNodes_nil]
  simp [h]

/-- Strings with something appended on the left of a non-empty string
are non-empty. -/
theorem append_ne_empty_right (a : String) {b : String} (hb : b ≠ "") :
    a ++ b ≠ "" := by
  intro h
  apply hb
  have hd : (a ++ b).data = a.data ++ b.data := String.data_append a b
  have h0 : (a ++ b).data = [] := by rw [h]
  rw [hd] at h0
  rcases List.append_eq_nil.mp h0 with ⟨_, h₂⟩
  cases b
  simp_all

/-- Strings with something appended on the right of a non-empty string
are non-empty. -/
theorem append_ne_empty_left {a : String} (ha : a ≠ "") (b : String) :
    a ++ b ≠ "" := by
  intro h
  apply ha
  have hd : (a ++ b).data = a.data ++ b.data := String.data_append a b
  have h0 : (a ++ b).data = [] := by rw [h]
  rw [hd] at h0
  rcases List.append_eq_nil.mp h0 with ⟨h₁, _⟩
  cases a
  simp_all


theorem syntheticScalarChild_good {k : String} {v : JVal} {n : SimplifiedNode}
    (h : syntheticScalarChild k v = some n) : goodNode n = true := by
  unfold syntheticScalarChild at h
  split at h
  · cases h
  · injection h with h
    subst h
    exact goodNode_leaf (append_ne_empty_left (append_ne_empty_right k (by decide)) _)
  · injection h with h
    subst h
    exact goodNode_leaf (append_ne_empty_left (append_ne_empty_right k (by decide)) _)

theorem syntheticArrayChild_good {i : Nat} {v : JVal} {n : SimplifiedNode}
    (h : syntheticArrayChild i v = some n) : goodNode n = true := by
  unfold syntheticArrayChild at h
  split at h
  · cases h
  · injection h with h
    subst h
    exact goodNode_leaf (append_ne_empty_left
      (append_ne_empty_right ("[" ++ toString i) (by decide)) _)
  · injection h with h
    subst h
    exact goodNode_leaf (append_ne_empty_left
      (append_ne_empty_right ("[" ++ toString i) (by decide)) _)

/-- Every synthetic child produced by the no-standard-children fallback
of `extractTree` is good. -/
theorem syntheticChildren_good (obj : List (String × JVal)) (title : String) :
    goodNodes (syntheticChildren obj title) = true := by
  apply goodNodes_of_forall
  intro n hn
  unfold syntheticChildren at hn
  rcases List.mem_filterMap.mp hn with ⟨kv, _, hf⟩
  by_cases ht : kv.1 = title
  · rw [if_pos ht] at hf
    cases hf
  · rw [if_neg ht] at hf
    cases hv : kv.2 <;> simp only [hv] at hf
    · cases hf
    · cases hf
    · cases hf
    · cases hf
    · -- array value
      split at hf
      · cases hf
      · injection hf with hf
        subst hf
        rw [goodNode_def]
        simp only [Bool.and_eq_true, Bool.or_eq_true, decide_eq_true_eq]
        refine ⟨Or.inl (append_ne_empty_right _
          (show (" items)" : String) ≠ "" by decide)), ?_⟩
        apply goodNodes_of_forall
        intro m hm
        rcases List.mem_filterMap.mp hm with ⟨ip, _, hg⟩
        exact syntheticArrayChild_good hg
    · -- object value
      split at hf
      · cases hf
      · injection hf with hf
        subst hf
        rw [goodNode_def]
        simp only [Bool.and_eq_true, Bool.or_eq_true, decide_eq_true_eq]
        refine ⟨Or.inl (append_ne_empty_right kv.1 (by decide)), ?_⟩
        apply goodNodes_of_forall
        intro m hm
        rcases List.mem_filterMap.mp hm with ⟨nkv, _, hg⟩
        exact syntheticScalarChild_good hg

/-- The scorer's selection loop returns the running best or a list
member. -/
theorem selectBest_go_mem (best : SimplifiedNode) (s : Int) (l : List SimplifiedNode) :
    selectBestBusinessRootNode.go best s l ∈ best :: l := by
  induction l generalizing best s with
  | nil =>
    unfold selectBestBusinessRootNode.go
    exact List.mem_cons_self _ _
  | cons n ns ih =>
    unfold selectBestBusinessRootNode.go
    split
    · have := ih n (scoreBusinessRootNode n)
      simp only [List.mem_cons] at this ⊢
      tauto
    · have := ih best s
      simp only [List.mem_cons] at this ⊢
      tauto

/-- `selectBestBusinessRootNode` returns a member of its input. -/
theorem selectBest_mem {ns : List SimplifiedNode} {n : SimplifiedNode}
    (h : selectBestBusinessRootNode ns = some n) : n ∈ ns := by
  unfold selectBestBusinessRootNode at h
  split at h
  · cases h
  · rename_i n₀ rest
    injection h with h
    have := selectBest_go_mem n₀ (scoreBusinessRootNode n₀) rest
    rw [h] at this
    exact this

theorem isBusinessText_empty : isBusinessText "" = false := rfl

/-- Every survivor of the filter-and-deduplicate loop is a business
text. -/
theorem filterDedup_mem_isBusinessText :
    ∀ (l seen : List String) (t : String), t ∈ filterDedup seen l →
      isBusinessText t = true := by
  intro l
  induction l with
  | nil => intro seen t h; cases h
  | cons x xs ih =>
    intro seen t h
    unfold filterDedup at h
    split at h
    · rename_i hc
      rcases List.mem_cons.mp h with h | h
      · subst h
        exact (Bool.and_eq_true _ _ |>.mp hc).1
      · exact ih _ _ h
    · exact ih _ _ h

theorem mem_enumFrom_fst_lt {α : Type} :
    ∀ (l : List α) (i : Nat) (p : Nat × α), p ∈ l.enumFrom i → p.1 < i + l.length := by
  intro l
  induction l with
  | nil => intro i p h; cases h
  | cons x xs ih =>
    intro i p h
    rcases List.mem_cons.mp h with h | h
    · subst h; simp
    · have := ih (i + 1) p h
      simp only [List.length_cons]
      omega

theorem mem_enumFrom_snd {α : Type} :
    ∀ (l : List α) (i : Nat) (p : Nat × α), p ∈ l.enumFrom i → p.2 ∈ l := by
  intro l
  induction l with
  | nil => intro i p h; cases h
  | cons x xs ih =>
    intro i p h
    rcases List.mem_cons.mp h with h | h
    · subst h; exact List.mem_cons_self _ _
    · exact List.mem_cons_of_mem _ (ih (i + 1) p h)

/-- The title-selection fold stays below the list length. -/
theorem titleIndexGo_lt (l : List String) (h : l ≠ []) :
    titleIndexGo l < l.length := by
  have key : ∀ (ps : List (Nat × String)) (init : Nat × Nat),
      init.1 < l.length → (∀ p ∈ ps, p.1 < l.length) →
      (ps.foldl
        (fun best p => if runeLen p.2 > best.2 then (p.1, runeLen p.2) else best)
        init).1 < l.length := by
    intro ps
    induction ps with
    | nil => intro init h1 _; exact h1
    | cons p ps ih =>
      intro init h1 h2
      simp only [List.foldl_cons]
      apply ih
      · split
        · exact h2 p (List.mem_cons_self _ _)
        · exact h1
      · intro q hq; exact h2 q (List.mem_cons_of_mem _ hq)
  unfold titleIndexGo
  apply key
  · cases l with
    | nil => exact absurd rfl h
    | cons x xs => simp
  · intro p hp
    have := mem_enumFrom_fst_lt l 0 p hp
    simpa using this

theorem getD_mem_of_lt : ∀ (l : List String) (i : Nat), i < l.length →
    l.getD i "" ∈ l := by
  intro l
  induction l with
  | nil => intro i h; cases h
  | cons x xs ih =>
    intro i h
    cases i with
    | zero => exact List.mem_cons_self _ _
    | succ j =>
      simp only [List.getD_cons_succ]
      exact List.mem_cons_of_mem _ (ih j (by simpa using Nat.lt_of_succ_lt_succ h))

/-- The inner bubble pass permutes its inputs. -/
theorem bubbleInner_perm (x : String) (l : List String) :
    List.Perm ((bubbleInner x l).1 :: (bubbleInner x l).2) (x :: l) := by
  induction l generalizing x with
  | nil => simp [bubbleInner]
  | cons y ys ih =>
    unfold bubbleInner
    split
    · refine List.Perm.trans (List.Perm.swap x _ _) ?_
      exact List.Perm.cons x (ih y)
    · refine List.Perm.trans (List.Perm.swap y _ _) ?_
      exact List.Perm.trans (List.Perm.cons y (ih x)) (List.Perm.swap x y ys)

/-- The descending-length selection sort permutes its input. -/
theorem sortByRuneLenDesc_perm : ∀ (l : List String),
    List.Perm (sortByRuneLenDesc l) l := by
  have key : ∀ (n : Nat) (l : List String), l.length ≤ n →
      List.Perm (sortByRuneLenDesc l) l := by
    intro n
    induction n with
    | zero =>
      intro l h
      cases l with
      | nil => unfold sortByRuneLenDesc; exact List.Perm.refl _
      | cons x xs => simp at h
    | succ n ih =>
      intro l h
      cases l with
      | nil => unfold sortByRuneLenDesc; exact List.Perm.refl _
      | cons x xs =>
        unfold sortByRuneLenDesc
        refine List.Perm.trans (List.Perm.cons _ (ih _ ?_)) (bubbleInner_perm x xs)
        rw [bubbleInner_length]
        simpa using Nat.le_of_succ_le_succ h
  intro l
  exact key l.length l le_rfl

/-- The text-flattening last resort always produces a good node. -/
theorem createGenericBusinessTextStructure_good (data : JVal) :
    goodNode (createGenericBusinessTextStructure data) = true := by
  unfold createGenericBusinessTextStructure
  set bt := filterDedup [] (ExtractTextContent data) with hbt
  by_cases he : bt.isEmpty
  · rw [if_pos he]
    exact goodNode_leaf (by decide)
  · rw [if_neg he]
    have hne : bt ≠ [] := by
      intro h; apply he; rw [h]; rfl
    have hti : titleIndexGo bt < bt.length := titleIndexGo_lt bt hne
    have htitle : bt.getD (titleIndexGo bt) "" ∈ bt := getD_mem_of_lt bt _ hti
    have htb : isBusinessText (bt.getD (titleIndexGo bt) "") = true :=
      filterDedup_mem_isBusinessText _ _ _ htitle
    rw [goodNode_def]
    simp only [Bool.and_eq_true, Bool.or_eq_true, decide_eq_true_eq]
    constructor
    · left
      intro h
      rw [h, isBusinessText_empty] at htb
      cases htb
    · apply goodNodes_of_forall
      intro m hm
      rcases List.mem_map.mp hm with ⟨t, ht, hmt⟩
      subst hmt
      have ht2 : t ∈ bt.enum.filterMap
          (fun p => if p.1 = titleIndexGo bt then none else some p.2) := by
        exact ((sortByRuneLenDesc_perm _).mem_iff).mp ht
      rcases List.mem_filterMap.mp ht2 with ⟨p, hp, hpt⟩
      have hpt2 : t = p.2 := by
        by_cases hc : p.1 = titleIndexGo bt
        · rw [if_pos hc] at hpt; cases hpt
        · rw [if_neg hc] at hpt; injection hpt with h; exact h.symm
      subst hpt2
      have : p.2 ∈ bt := mem_enumFrom_snd bt 0 p hp
      have hb : isBusinessText p.2 = true := filterDedup_mem_isBusinessText _ _ _ this
      apply goodNode_leaf
      intro h
      rw [h, isBusinessText_empty] at hb
      cases hb

/-- The children loop preserves goodness, given it for same-depth tree
extraction. -/
theorem extractKids_good_of_tree (e : TreeExtractor) (depth : Nat)
    (htree : ∀ obj n, extractTree e obj depth = .ok (some n) → goodNode n = true) :
    ∀ (cs : List JVal) (ns : List SimplifiedNode),
      extractKids e cs depth = .ok ns → goodNodes ns = true := by
  intro cs
  induction cs with
  | nil =>
    intro ns h
    unfold extractKids at h
    injection h with h
    subst h
    exact goodNodes_nil
  | cons c rest ih =>
    intro ns h
    unfold extractKids at h
    split at h
    · rename_i co
      split at h
      · cases h
      · rename_i r hr
        split at h
        · cases h
        · rename_i others ho
          injection h with h
          subst h
          cases r with
          | none => exact ih _ ho
          | some m =>
            rw [goodNodes_cons]
            simp only [Bool.and_eq_true]
            exact ⟨htree co m hr, ih _ ho⟩
    · exact ih _ h

/-- Fuel-indexed goodness of `extractTree`: any emitted node and all
its descendants have a title or a child. -/
theorem extractTree_good_fuel (e : TreeExtractor) :
    ∀ (K : Nat) (obj : List (String × JVal)) (depth : Nat) (n : SimplifiedNode),
      e.maxDepth + 2 - depth ≤ K →
      extractTree e obj depth = .ok (some n) → goodNode n = true := by
  intro K
  induction K with
  | zero =>
    intro obj depth n hf h
    unfold extractTree at h
    split at h
    · simp at h
    · rename_i hd
      omega
  | succ K ih =>
    intro obj depth n hf h
    unfold extractTree at h
    split at h
    · simp at h
    · rename_i hd
      split at h
      · cases h
      · rename_i children hfc
        split at h
        · cases h
        · rename_i kids hek
          have hkids : goodNodes kids = true := by
            refine extractKids_good_of_tree e (depth + 1) ?_ _ _ hek
            intro obj2 n2 h2
            exact ih obj2 (depth + 1) n2 (by omega) h2
          split at h <;> rename_i hemp
          all_goals dsimp only at h
          · split at h
            · rename_i hcond
              injection h with h
              injection h with h
              subst h
              rw [goodNode_def]
              simp only [Bool.and_eq_true]
              exact ⟨hcond, syntheticChildren_good _ _⟩
            · simp at h
          · split at h
            · rename_i hcond
              injection h with h
              injection h with h
              subst h
              rw [goodNode_def]
              simp only [Bool.and_eq_true]
              exact ⟨hcond, hkids⟩
            · simp at h

/-- Every node `extractTree` emits is good. -/
theorem extractTree_good (e : TreeExtractor) (obj : List (String × JVal))
    (depth : Nat) (n : SimplifiedNode)
    (h : extractTree e obj depth = .ok (some n)) : goodNode n = true :=
  extractTree_good_fuel e (e.maxDepth + 2 - depth) obj depth n le_rfl h

/-- Every list `extractKids` emits is good. -/
theorem extractKids_good (e : TreeExtractor) (cs : List JVal) (depth : Nat)
    (ns : List SimplifiedNode) (h : extractKids e cs depth = .ok ns) :
    goodNodes ns = true :=
  extractKids_good_of_tree e depth
    (fun obj n h2 => extractTree_good e obj depth n h2) cs ns h

theorem ptcmChildren_cons (e : TreeExtractor) (c : JVal) (cs : List JVal) (d : Nat) :
    ptcmChildren e (c :: cs) d =
      (match c with
       | .obj childMap =>
         match parseTestCaseMindNode e childMap d with
         | some n => n :: ptcmChildren e cs d
         | none => ptcmChildren e cs d
       | _ => ptcmChildren e cs d) := by
  conv_lhs => unfold ptcmChildren

/-- The pattern child loop preserves goodness, given it for the node
builder at the same depth. -/
theorem ptcmChildren_good_of_node (e : TreeExtractor) (depth : Nat)
    (hnode : ∀ m n, parseTestCaseMindNode e m depth = some n → goodNode n = true) :
    ∀ cs : List JVal, goodNodes (ptcmChildren e cs depth) = true := by
  intro cs
  induction cs with
  | nil =>
    rw [ptcmChildren_nil]
    exact goodNodes_nil
  | cons c rest ih =>
    rw [ptcmChildren_cons]
    cases c with
    | obj co =>
      cases hp : parseTestCaseMindNode e co depth with
      | none =>
        simp only [hp]
        exact ih
      | some m =>
        simp only [hp]
        rw [goodNodes_cons]
        simp only [Bool.and_eq_true]
        exact ⟨hnode co m hp, ih⟩
    | null => exact ih
    | bool b => exact ih
    | num q => exact ih
    | str s => exact ih
    | arr l => exact ih

/-- Fuel-indexed goodness of `parseTestCaseMindNode`. -/
theorem parseTestCaseMindNode_good_fuel (e : TreeExtractor) :
    ∀ (K : Nat) (nodeData : List (String × JVal)) (depth : Nat) (n : SimplifiedNode),
      e.maxDepth + 2 - depth ≤ K →
      parseTestCaseMindNode e nodeData depth = some n → goodNode n = true := by
  intro K
  induction K with
  | zero =>
    intro nodeData depth n hf h
    unfold parseTestCaseMindNode at h
    split at h
    · cases h
    · rename_i hd
      omega
  | succ K ih =>
    intro nodeData depth n hf h
    have hgood : ∀ cs : List JVal, goodNodes (ptcmChildren e cs (depth + 1)) = true := by
      refine ptcmChildren_good_of_node e (depth + 1) ?_
      intro m n2 h2
      exact ih m (depth + 1) n2 (by omega) h2
    unfold parseTestCaseMindNode at h
    split at h
    · cases h
    · rename_i hd
      split at h
      · lift_lets at h
        extract_lets richTitle titleText at h
        by_cases ht : titleText = ""
        · rw [if_pos ht] at h
          split at h
          · rename_i childrenArray
            split at h
            · cases h
            · split at h
              · exact forall_of_goodNodes (hgood _) n (selectBest_mem h)
              · injection h with h
                subst h
                rw [goodNode_def]
                simp only [Bool.and_eq_true, Bool.or_eq_true, decide_eq_true_eq]
                exact ⟨Or.inl (by decide), hgood _⟩
          · cases h
        · rw [if_neg ht] at h
          split at h
          · rename_i childrenArray
            split at h
            · injection h with h
              subst h
              rw [goodNode_def]
              simp only [Bool.and_eq_true, Bool.or_eq_true, decide_eq_true_eq]
              exact ⟨Or.inl ht, goodNodes_nil⟩
            · injection h with h
              subst h
              rw [goodNode_def]
              simp only [Bool.and_eq_true, Bool.or_eq_true, decide_eq_true_eq]
              exact ⟨Or.inl ht, hgood _⟩
          · injection h with h
            subst h
            rw [goodNode_def]
            simp only [Bool.and_eq_true, Bool.or_eq_true, decide_eq_true_eq]
            exact ⟨Or.inl ht, goodNodes_nil⟩
      · cases h

/-- Every node `parseTestCaseMindNode` emits is good. -/
theorem parseTestCaseMindNode_good (e : TreeExtractor)
    (nodeData : List (String × JVal)) (depth : Nat) (n : SimplifiedNode)
    (h : parseTestCaseMindNode e nodeData depth = some n) : goodNode n = true :=
  parseTestCaseMindNode_good_fuel e (e.maxDepth + 2 - depth) nodeData depth n le_rfl h

/-- Every list the pattern child loop emits is good. -/
theorem ptcmChildren_good (e : TreeExtractor) (cs : List JVal) (depth : Nat) :
    goodNodes (ptcmChildren e cs depth) = true :=
  ptcmChildren_good_of_node e depth
    (fun m n h => parseTestCaseMindNode_good e m depth n h) cs

/-- The standard array walk preserves goodness. -/
theorem standardRoots_good (e : TreeExtractor) :
    ∀ (cs : List JVal) (ns : List SimplifiedNode),
      standardRoots e cs = .ok ns → goodNodes ns = true := by
  intro cs
  induction cs with
  | nil =>
    intro ns h
    injection h with h
    subst h
    exact goodNodes_nil
  | cons c rest ih =>
    intro ns h
    unfold standardRoots at h
    split at h
    · rename_i co
      split at h
      · cases h
      · rename_i r hr
        split at h
        · cases h
        · rename_i others ho
          injection h with h
          subst h
          cases r with
          | none => exact ih _ ho
          | some m =>
            rw [goodNodes_cons]
            simp only [Bool.and_eq_true]
            exact ⟨extractTree_good e co 0 m hr, ih _ ho⟩
    · exact ih _ h

/-- The standard tree walk only produces good results. -/
theorem tryStandardTreeStructure_good (e : TreeExtractor) (data : JVal)
    (r : ResultVal) (h : tryStandardTreeStructure e data = .ok (some r)) :
    goodRes r = true := by
  unfold tryStandardTreeStructure at h
  split at h
  · split at h
    · cases h
    · rename_i node hnode
      injection h with h
      injection h with h
      subst h
      exact extractTree_good e _ 0 node hnode
    · simp at h
  · split at h
    · cases h
    · rename_i roots hroots
      injection h with h
      split at h
      · cases h
      · injection h with h
        subst h
        exact standardRoots_good e _ _ hroots
  · simp at h

/-- `parseMultiRootNode` only produces good results. -/
theorem parseMultiRootNode_good (e : TreeExtractor) (cs : List JVal) (d : Nat)
    (r : ResultVal) (h : parseMultiRootNode e cs d = some r) : goodRes r = true := by
  unfold parseMultiRootNode at h
  dsimp only at h
  split at h
  · cases h
  · injection h with h
    subst h
    exact ptcmChildren_good e cs (d + 1)

/-- The TestCaseMind pattern builder only produces good results. -/
theorem parseTestCaseMindStructurePattern_good (e : TreeExtractor)
    (tcm : List (String × JVal)) (r : ResultVal)
    (h : parseTestCaseMindStructurePattern e tcm = some r) : goodRes r = true := by
  unfold parseTestCaseMindStructurePattern at h
  dsimp only at h
  split at h
  · rename_i r1 hb1
    injection h with h
    subst h
    split at hb1
    · split at hb1
      · rename_i rootNode hroot
        injection hb1 with hb1
        subst hb1
        show goodNodes [rootNode] = true
        rw [goodNodes_cons, goodNodes_nil]
        simp only [Bool.and_true]
        exact parseTestCaseMindNode_good e tcm 0 rootNode hroot
      · split at hb1
        · split at hb1
          · cases hb1
          · injection hb1 with hb1
            subst hb1
            exact ptcmChildren_good e _ 0
        · cases hb1
    · cases hb1
  · rename_i hb1
    split at h
    · rename_i r2 hb2
      injection h with h
      subst h
      split at hb2
      · split at hb2
        · cases hb2
        · injection hb2 with hb2
          subst hb2
          exact ptcmChildren_good e _ 0
      · cases hb2
    · rename_i hb2
      split at h
      · rename_i result hres
        injection h with h
        subst h
        show goodNodes [result] = true
        rw [goodNodes_cons, goodNodes_nil]
        simp only [Bool.and_true]
        exact parseTestCaseMindNode_good e tcm 0 result hres
      · split at h
        · exact parseMultiRootNode_good e _ 0 r h
        · injection h with h
          subst h
          rfl

/-- The direct TestCaseMind path only produces good results. -/
theorem parseTestCaseMindStructureDirect_good (e : TreeExtractor) (data : JVal)
    (r : ResultVal) (h : parseTestCaseMindStructureDirect e data = some r) :
    goodRes r = true := by
  unfold parseTestCaseMindStructureDirect at h
  split at h
  · split at h
    · split at h
      · split at h
        · cases h
        · split at h
          · exact parseTestCaseMindStructurePattern_good e _ r h
          · cases h
      · cases h
    · cases h
  · cases h

/-- The full default pipeline only produces good results. -/
theorem createDefaultStructure_good (e : TreeExtractor) (raw : JVal)
    (r : ResultVal) (h : createDefaultStructure e raw = .ok (some r)) :
    goodRes r = true := by
  unfold createDefaultStructure at h
  split at h
  · rename_i r1 hdir
    injection h with h
    injection h with h
    subst h
    exact parseTestCaseMindStructureDirect_good e raw _ hdir
  · split at h
    · cases h
    · rename_i r1 hstd
      injection h with h
      injection h with h
      subst h
      exact tryStandardTreeStructure_good e raw _ hstd
    · injection h with h
      injection h with h
      subst h
      exact createGenericBusinessTextStructure_good raw

/-- Evaluation helper: extraction of the empty object yields the
default `"API Response"` node. -/
theorem extract_empty_obj_eval :
    Extract extractorDefault (.obj []) = .ok (.single ⟨"API Response", []⟩) := by
  have hvoid : extractTree extractorDefault [] 0 = .ok none := by
    rw [extractTree_step extractorDefault [] 0 (by decide) [] rfl [] (extractKids_nil _ _)]
    rfl
  have hstd : tryStandardTreeStructure extractorDefault (.obj []) = .ok none := by
    unfold tryStandardTreeStructure
    simp only [hvoid]
  have hgen : createGenericBusinessTextStructure (.obj []) = ⟨"API Response", []⟩ := by
    unfold createGenericBusinessTextStructure
    rw [ExtractTextContent_obj_nil]
    rfl
  rw [Extract_of_generic extractorDefault (.obj []) rfl hstd, hgen]

/-- C9 (amended): not every emitted node has a non-empty name — the
generic extractor emits untitled nodes that have children (see
`c9_counterexample`).  The invariant that does hold on every path is:
every node in a successful `Extract` result, at every depth, has a
non-empty name OR at least one child; a node with an empty name and no
children is silently dropped and never returned. -/
theorem c9_every_output_node_good (e : TreeExtractor) (v : JVal) (r : ResultVal)
    (h : Extract e v = .ok r) : goodRes r = true := by
  unfold Extract at h
  split at h
  · cases h
  · cases h
  · rename_i r1 hc
    injection h with h
    subst h
    exact createDefaultStructure_good e v _ hc

/-- Witness for the amended C9 invariant at a concrete input. -/
theorem c9_every_output_node_good_witness :
    Extract extractorDefault (.obj []) = .ok (.single ⟨"API Response", []⟩) ∧
    goodRes (.single ⟨"API Response", []⟩) = true :=
  ⟨extract_empty_obj_eval,
   c9_every_output_node_good extractorDefault (.obj [])
     (.single ⟨"API Response", []⟩) extract_empty_obj_eval⟩

/-! ## Classifier invariants (C6) -/

theorem char_toNat_ofNat (n : Nat) (h : Nat.isValidChar n) :
    (Char.ofNat n).toNat = n := by
  unfold Char.ofNat
  rw [dif_pos h]
  unfold Char.toNat
  simp [Char.ofNatAux, UInt32.toNat, BitVec.toNat_ofNatLt]

/-- ASCII case folding neither creates nor destroys CJK code points. -/
theorem toLower_cjk (c : Char) :
    (decide (0x4e00 ≤ c.toLower.toNat) && decide (c.toLower.toNat ≤ 0x9fff)) =
    (decide (0x4e00 ≤ c.toNat) && decide (c.toNat ≤ 0x9fff)) := by
  unfold Char.toLower
  dsimp only
  by_cases h : c.toNat ≥ 65 ∧ c.toNat ≤ 90
  · rw [if_pos h]
    have hv : (Char.ofNat (c.toNat + 32)).toNat = c.toNat + 32 :=
      char_toNat_ofNat _ (Or.inl (by omega))
    rw [hv]
    have h1 : ¬(0x4e00 ≤ c.toNat + 32) := by omega
    have h2 : ¬(0x4e00 ≤ c.toNat) := by omega
    simp [h1, h2]
  · rw [if_neg h]

/-- Lowercasing preserves the `hasChinese` test. -/
theorem hasChinese_goToLower (s : String) :
    hasChinese (goToLower s) = hasChinese s := by
  unfold hasChinese goToLower
  rw [List.any_map]
  show s.data.any ((fun r => decide (0x4e00 ≤ r.toNat) && decide (r.toNat ≤ 0x9fff)) ∘ Char.toLower) = _
  congr 1
  funext c
  exact toLower_cjk c

/-- A string containing a CJK character never case-folds to a short
technical word. -/
theorem shortTechReject_of_hasChinese {s : String} (h : hasChinese s = true) :
    shortTechReject s = false := by
  cases hr : shortTechReject s
  · rfl
  · exfalso
    unfold shortTechReject at hr
    rw [List.any_eq_true] at hr
    rcases hr with ⟨w, hw, hfold⟩
    unfold goEqualFold at hfold
    rw [beq_iff_eq] at hfold
    have hchain : hasChinese (goToLower w) = true := by
      rw [← hfold, hasChinese_goToLower, h]
    fin_cases hw <;> exact absurd hchain (by decide)

/-- A text free of technical keywords passes the special error filter. -/
theorem specialErrorFilter_of_technical {s : String}
    (h : containsAny s technicalKeywords = false) :
    specialErrorFilter s = false := by
  have key : ∀ k, k ∈ technicalKeywords → goContains s k = true → False := by
    intro k hk hc
    have hco : containsAny s technicalKeywords = true := by
      unfold containsAny
      rw [List.any_eq_true]
      exact ⟨k, hk, hc⟩
    rw [h] at hco
    cases hco
  cases hr : specialErrorFilter s
  · rfl
  · exfalso
    unfold specialErrorFilter at hr
    simp only [Bool.or_eq_true] at hr
    rcases hr with ((h4 | h4) | h4) | h4
    · exact key "Auth ERROR" (by decide) h4
    · exact key "Jwt validate failed" (by decide) h4
    · exact key "API Response" (by decide) h4
    · exact key "errCode" (by decide) h4

/-- C6 counterexample: `"门店Token"` contains a CJK code point and the
configured business keyword `"门店"`, yet the classifier rejects it —
the technical keyword `"Token"` is checked first. -/
theorem c6_counterexample :
    hasChinese "门店Token" = true ∧
    containsAny "门店Token" shortCJKBusinessKeywords = true ∧
    containsAny "门店Token" technicalKeywords = true ∧
    isBusinessText "门店Token" = false := by
  refine ⟨by decide, by decide, by decide, by decide⟩

set_option maxHeartbeats 1000000 in
/-- C6 (amended): the classifier is a pure function and the short-name
rule holds — every 2–4 rune all-CJK string without a configured
business keyword is rejected.  The acceptance half is weaker than
claimed: a CJK string containing a business keyword is accepted only
when it also survives the earlier rejection filters (no technical
keyword, no numbered-step rejection, no serialized-value pattern);
`"门店Token"` shows the keyword alone does not suffice. -/
theorem c6_classifier_corrected :
    (∀ s : String, 2 ≤ runeLen s → runeLen s ≤ 4 →
        (∀ c ∈ s.data, 0x4e00 ≤ c.toNat ∧ c.toNat ≤ 0x9fff) →
        containsAny s shortCJKBusinessKeywords = false →
        isBusinessText s = false) ∧
    (∀ s : String, hasChinese s = true →
        containsAny s shortCJKBusinessKeywords = true →
        containsAny s technicalKeywords = false →
        numericStepReject s = false →
        serializedReject s = false →
        isBusinessText s = true) := by
  constructor
  · intro s h1 h2 hall hkw
    have hC : hasChinese s = true := by
      unfold hasChinese
      cases hd : s.data with
      | nil =>
        rw [runeLen, hd] at h1
        simp at h1
      | cons c cs =>
        have hc := hall c (by rw [hd]; exact List.mem_cons_self _ _)
        rw [List.any_cons]
        simp only [Bool.or_eq_true, Bool.and_eq_true, decide_eq_true_eq]
        exact Or.inl ⟨hc.1, hc.2⟩
    have hrej : shortCJKNameReject s = true := by
      unfold shortCJKNameReject
      rw [hC, hkw]
      simp [h1, h2]
    unfold isBusinessText
    split_ifs <;> simp_all
  · intro s hC hkw htech hnum hser
    have hne : ¬(s = "") := by
      intro he
      rw [he] at hC
      cases hC
    have hspec : specialErrorFilter s = false := specialErrorFilter_of_technical htech
    have hcjkrej : shortCJKNameReject s = false := by
      unfold shortCJKNameReject
      rw [hkw]
      simp
    have hst : shortTechReject s = false := shortTechReject_of_hasChinese hC
    unfold isBusinessText
    split_ifs <;> simp_all

/-- Witness for the amended C6 statement: the short personal name
`"王通"` is rejected and the business phrase `"门店搜索"` accepted. -/
theorem c6_classifier_corrected_witness :
    isBusinessText "王通" = false ∧ isBusinessText "门店搜索" = true :=
  ⟨c6_classifier_corrected.1 "王通" (by decide) (by decide) (by decide) (by decide),
   c6_classifier_corrected.2 "门店搜索" (by decide) (by decide) (by decide)
     (by decide) (by decide)⟩

/-! ## Recursion-frame mirrors (C8).  Each function counts the deepest
chain of nested recursive invocations the corresponding source function
performs on the given input (one frame per invocation; the loop helpers
run inside their caller's frame, so they add none). -/

mutual

/-- Frame count of `extractTree`: one frame, plus the deepest child
extraction when the depth guard admits recursion. -/
def extractTreeFrames (e : TreeExtractor) (obj : List (String × JVal))
    (depth : Nat) : Nat :=
  if depth > e.maxDepth then 1
  else
    match findChildren e obj with
    | .error _ => 1
    | .ok children => 1 + extractKidsFrames e children (depth + 1)
termination_by (e.maxDepth + 2 - depth, 0)
decreasing_by
  apply Prod.Lex.left
  omega

/-- Deepest frame chain across the children loop of `extractTree`. -/
def extractKidsFrames (e : TreeExtractor) (cs : List JVal) (depth : Nat) : Nat :=
  match cs with
  | [] => 0
  | c :: rest =>
    match c with
    | .obj co => max (extractTreeFrames e co depth) (extractKidsFrames e rest depth)
    | _ => extractKidsFrames e rest depth
termination_by (e.maxDepth + 2 - depth, cs.length + 1)
decreasing_by
  all_goals apply Prod.Lex.right
  all_goals simp only [List.length_cons]
  all_goals omega

end

mutual

/-- Frame count of `parseTestCaseMindNode`: one frame, plus the deepest
child build under the `children` key when the depth guard admits
recursion (an upper-bound mirror: branches that skip the child loop
count as if they ran it). -/
def ptcmFrames (e : TreeExtractor) (nodeData : List (String × JVal))
    (depth : Nat) : Nat :=
  if depth > e.maxDepth then 1
  else
    match jlookup nodeData "children" with
    | some (.arr cs) => 1 + ptcmFramesChildren e cs (depth + 1)
    | _ => 1
termination_by (e.maxDepth + 2 - depth, 0)
decreasing_by
  apply Prod.Lex.left
  omega

/-- Deepest frame chain across the child loop of the pattern builder. -/
def ptcmFramesChildren (e : TreeExtractor) (cs : List JVal) (depth : Nat) : Nat :=
  match cs with
  | [] => 0
  | c :: rest =>
    match c with
    | .obj childMap => max (ptcmFrames e childMap depth) (ptcmFramesChildren e rest depth)
    | _ => ptcmFramesChildren e rest depth
termination_by (e.maxDepth + 2 - depth, cs.length + 1)
decreasing_by
  all_goals apply Prod.Lex.right
  all_goals simp only [List.length_cons]
  all_goals omega

end

mutual

/-- Frame count of `ExtractTextContent` (no depth guard exists in the
source: recursion follows the value's nesting without limit). -/
def etcFrames : JVal → Nat
  | .str _ => 1
  | .obj v => 1 + etcEntriesFrames v
  | .arr v => 1 + etcListFrames v
  | _ => 1

/-- Deepest frame chain across the key loop of `ExtractTextContent`
(text-like keys are read in place and add no frame). -/
def etcEntriesFrames : List (String × JVal) → Nat
  | [] => 0
  | (key, value) :: rest =>
    (if key = "text" || goContains key "text" then 0
     else if key = "title" || key = "name" || key = "label" ||
             key = "message" || key = "description" then 0
     else etcFrames value) ⊔ etcEntriesFrames rest

/-- Deepest frame chain across the array loop of `ExtractTextContent`. -/
def etcListFrames : List JVal → Nat
  | [] => 0
  | x :: xs => max (etcFrames x) (etcListFrames xs)

end

/-- A JSON array nested `n` levels deep around a string. -/
def nestArr : Nat → JVal
  | 0 => .str "x"
  | n + 1 => .arr [nestArr n]

theorem etcFrames_str (s : String) : etcFrames (.str s) = 1 := by
  unfold etcFrames
  rfl

theorem etcFrames_arr (v : List JVal) : etcFrames (.arr v) = 1 + etcListFrames v := by
  conv_lhs => unfold etcFrames

theorem etcListFrames_nil : etcListFrames [] = 0 := by
  unfold etcListFrames
  rfl

theorem etcListFrames_cons (x : JVal) (xs : List JVal) :
    etcListFrames (x :: xs) = max (etcFrames x) (etcListFrames xs) := by
  conv_lhs => unfold etcListFrames

/-- The business-text collection recurses as deep as the value nests:
its frame count on an `n`-fold nested array is `n + 1`. -/
theorem etcFrames_nestArr : ∀ n : Nat, etcFrames (nestArr n) = n + 1 := by
  intro n
  induction n with
  | zero =>
    show etcFrames (.str "x") = 1
    exact etcFrames_str "x"
  | succ n ih =>
    show etcFrames (.arr [nestArr n]) = n + 2
    rw [etcFrames_arr, etcListFrames_cons, etcListFrames_nil, ih]
    omega

theorem extractKidsFrames_nil (e : TreeExtractor) (d : Nat) :
    extractKidsFrames e [] d = 0 := by
  unfold extractKidsFrames
  rfl

theorem extractKidsFrames_cons (e : TreeExtractor) (c : JVal) (cs : List JVal)
    (d : Nat) :
    extractKidsFrames e (c :: cs) d =
      (match c with
       | .obj co => max (extractTreeFrames e co d) (extractKidsFrames e cs d)
       | _ => extractKidsFrames e cs d) := by
  conv_lhs => unfold extractKidsFrames

theorem ptcmFramesChildren_nil (e : TreeExtractor) (d : Nat) :
    ptcmFramesChildren e [] d = 0 := by
  unfold ptcmFramesChildren
  rfl

theorem ptcmFramesChildren_cons (e : TreeExtractor) (c : JVal) (cs : List JVal)
    (d : Nat) :
    ptcmFramesChildren e (c :: cs) d =
      (match c with
       | .obj co => max (ptcmFrames e co d) (ptcmFramesChildren e cs d)
       | _ => ptcmFramesChildren e cs d) := by
  conv_lhs => unfold ptcmFramesChildren

/-- Children-loop frame chains inherit any bound on same-depth tree
frames. -/
theorem extractKidsFrames_le (e : TreeExtractor) (d B : Nat)
    (htree : ∀ obj, extractTreeFrames e obj d ≤ B) :
    ∀ cs, extractKidsFrames e cs d ≤ B := by
  intro cs
  induction cs with
  | nil =>
    rw [extractKidsFrames_nil]
    exact Nat.zero_le B
  | cons c rest ih =>
    rw [extractKidsFrames_cons]
    cases c with
    | obj co => exact Nat.max_le.mpr ⟨htree co, ih⟩
    | null => exact ih
    | bool b => exact ih
    | num q => exact ih
    | str s => exact ih
    | arr l => exact ih

theorem ptcmFramesChildren_le (e : TreeExtractor) (d B : Nat)
    (htree : ∀ obj, ptcmFrames e obj d ≤ B) :
    ∀ cs, ptcmFramesChildren e cs d ≤ B := by
  intro cs
  induction cs with
  | nil =>
    rw [ptcmFramesChildren_nil]
    exact Nat.zero_le B
  | cons c rest ih =>
    rw [ptcmFramesChildren_cons]
    cases c with
    | obj co => exact Nat.max_le.mpr ⟨htree co, ih⟩
    | null => exact ih
    | bool b => exact ih
    | num q => exact ih
    | str s => exact ih
    | arr l => exact ih

/-- Fuel-indexed depth bound for the generic walker's frame chains. -/
theorem extractTreeFrames_le_fuel (e : TreeExtractor) :
    ∀ (K : Nat) (d : Nat) (obj : List (String × JVal)),
      e.maxDepth + 2 - d ≤ K →
      extractTreeFrames e obj d + min d (e.maxDepth + 1) ≤ e.maxDepth + 2 := by
  intro K
  induction K with
  | zero =>
    intro d obj hf
    unfold extractTreeFrames
    rw [if_pos (by omega)]
    omega
  | succ K ih =>
    intro d obj hf
    by_cases hd : d > e.maxDepth
    · unfold extractTreeFrames
      rw [if_pos hd]
      omega
    · have hkids : ∀ cs, extractKidsFrames e cs (d + 1) ≤ e.maxDepth + 1 - d := by
        refine extractKidsFrames_le e (d + 1) _ ?_
        intro obj2
        have := ih (d + 1) obj2 (by omega)
        omega
      unfold extractTreeFrames
      rw [if_neg hd]
      split
      · omega
      · rename_i children _
        have := hkids children
        omega

/-- Fuel-indexed depth bound for the pattern builder's frame chains. -/
theorem ptcmFrames_le_fuel (e : TreeExtractor) :
    ∀ (K : Nat) (d : Nat) (nodeData : List (String × JVal)),
      e.maxDepth + 2 - d ≤ K →
      ptcmFrames e nodeData d + min d (e.maxDepth + 1) ≤ e.maxDepth + 2 := by
  intro K
  induction K with
  | zero =>
    intro d nodeData hf
    unfold ptcmFrames
    rw [if_pos (by omega)]
    omega
  | succ K ih =>
    intro d nodeData hf
    by_cases hd : d > e.maxDepth
    · unfold ptcmFrames
      rw [if_pos hd]
      omega
    · have hkids : ∀ cs, ptcmFramesChildren e cs (d + 1) ≤ e.maxDepth + 1 - d := by
        refine ptcmFramesChildren_le e (d + 1) _ ?_
        intro obj2
        have := ih (d + 1) obj2 (by omega)
        omega
      unfold ptcmFrames
      rw [if_neg hd]
      split
      · rename_i cs _
        have := hkids cs
        omega
      · omega

/-- Past the depth guard the generic walker yields nothing. -/
theorem extractTree_truncates (e : TreeExtractor) (obj : List (String × JVal))
    (d : Nat) (hd : d > e.maxDepth) : extractTree e obj d = .ok none := by
  unfold extractTree
  rw [dif_pos hd]

/-- Past the depth guard the pattern builder yields nothing. -/
theorem parseTestCaseMindNode_truncates (e : TreeExtractor)
    (nodeData : List (String × JVal)) (d : Nat) (hd : d > e.maxDepth) :
    parseTestCaseMindNode e nodeData d = none := by
  unfold parseTestCaseMindNode
  rw [dif_pos hd]

/-- C8 counterexample: the business-text collection has no depth guard —
on a 102-level nested array it recurses 103 frames deep, exceeding the
claimed `maxDepth + 1` bound of the default extractor. -/
theorem c8_counterexample :
    etcFrames (nestArr 102) = 103 ∧
    extractorDefault.maxDepth + 1 < etcFrames (nestArr 102) := by
  have h := etcFrames_nestArr 102
  refine ⟨h, ?_⟩
  rw [h]
  decide

/-- C8 (amended): extraction always terminates (every embedded function
is total), and the two depth-guarded walkers have frame chains bounded
by `maxDepth + 2` from depth 0 (not `maxDepth + 1`: the guard admits
depths 0 through `maxDepth` and one further call that returns at once).
A truncated subtree is dropped entirely (`none`), not kept with an
empty children list.  The business-text collection has no depth guard
at all: its frame count equals the value's nesting depth plus one. -/
theorem c8_depth_bound_corrected :
    (∀ (e : TreeExtractor) (obj : List (String × JVal)) (d : Nat),
        extractTreeFrames e obj d + min d (e.maxDepth + 1) ≤ e.maxDepth + 2) ∧
    (∀ (e : TreeExtractor) (nodeData : List (String × JVal)) (d : Nat),
        ptcmFrames e nodeData d + min d (e.maxDepth + 1) ≤ e.maxDepth + 2) ∧
    (∀ (e : TreeExtractor) (obj : List (String × JVal)) (d : Nat),
        d > e.maxDepth → extractTree e obj d = .ok none) ∧
    (∀ (e : TreeExtractor) (nodeData : List (String × JVal)) (d : Nat),
        d > e.maxDepth → parseTestCaseMindNode e nodeData d = none) ∧
    (∀ n : Nat, etcFrames (nestArr n) = n + 1) :=
  ⟨fun e obj d => extractTreeFrames_le_fuel e (e.maxDepth + 2 - d) d obj le_rfl,
   fun e nodeData d => ptcmFrames_le_fuel e (e.maxDepth + 2 - d) d nodeData le_rfl,
   fun e obj d hd => extractTree_truncates e obj d hd,
   fun e nodeData d hd => parseTestCaseMindNode_truncates e nodeData d hd,
   etcFrames_nestArr⟩

/-- Witness for the amended C8 bounds at concrete inputs. -/
theorem c8_depth_bound_corrected_witness :
    (101 > extractorDefault.maxDepth ∧
      extractTree extractorDefault [] 101 = .ok none ∧
      parseTestCaseMindNode extractorDefault [] 101 = none) ∧
    etcFrames (nestArr 5) = 6 :=
  ⟨⟨by decide,
    c8_depth_bound_corrected.2.2.1 extractorDefault [] 101 (by decide),
    c8_depth_bound_corrected.2.2.2.1 extractorDefault [] 101 (by decide)⟩,
   c8_depth_bound_corrected.2.2.2.2 5⟩

/-! ## Key-synonym round-trip (C3): well-formed `{title-key, children-key}`
input trees, their JSON encodings, and their expected output shapes -/

/-- An input tree for the round-trip claim: each node stores which
configured title key and children key its object uses, its title
string, and its child subtrees. -/
inductive KTree where
  | node (tk ck name : String) (kids : List KTree)

mutual

/-- The JSON object encoding of a `KTree`: exactly one title entry and
one children entry, using the node's chosen key synonyms. -/
def encodeK : KTree → List (String × JVal)
  | .node tk ck name kids => [(tk, .str name), (ck, .arr (encodeKList kids))]

/-- Encodes each subtree as a JSON object element. -/
def encodeKList : List KTree → List JVal
  | [] => []
  | k :: ks => .obj (encodeK k) :: encodeKList ks

end

mutual

/-- The output the claim expects: same structure and titles, fields
renamed to `name`/`children`. -/
def shapeK : KTree → SimplifiedNode
  | .node _ _ name kids => ⟨name, shapeKList kids⟩

def shapeKList : List KTree → List SimplifiedNode
  | [] => []
  | k :: ks => shapeK k :: shapeKList ks

end

mutual

/-- Height of a `KTree` (a single node has height 1). -/
def heightK : KTree → Nat
  | .node _ _ _ kids => 1 + heightKList kids

def heightKList : List KTree → Nat
  | [] => 0
  | k :: ks => max (heightK k) (heightKList ks)

end

mutual

/-- Well-formedness for the round-trip claim: every node uses a
configured title key (non-empty string title) and a configured children
key, and the two keys differ. -/
def wfK (e : TreeExtractor) : KTree → Bool
  | .node tk ck name kids =>
    decide (tk ∈ e.titleKeys) && decide (ck ∈ e.childrenKeys) &&
    decide (tk ≠ ck) && decide (name ≠ "") && wfKList e kids

def wfKList (e : TreeExtractor) : List KTree → Bool
  | [] => true
  | k :: ks => wfK e k && wfKList e ks

end

mutual

/-- Height of an output node (a leaf has height 1). -/
def heightS : SimplifiedNode → Nat
  | ⟨_, cs⟩ => 1 + heightSList cs

def heightSList : List SimplifiedNode → Nat
  | [] => 0
  | c :: cs => max (heightS c) (heightSList cs)

end

theorem encodeK_node (tk ck name : String) (kids : List KTree) :
    encodeK (.node tk ck name kids) =
      [(tk, .str name), (ck, .arr (encodeKList kids))] := by
  conv_lhs => unfold encodeK

theorem encodeKList_nil : encodeKList [] = [] := by
  unfold encodeKList
  rfl

theorem encodeKList_cons (k : KTree) (ks : List KTree) :
    encodeKList (k :: ks) = .obj (encodeK k) :: encodeKList ks := by
  conv_lhs => unfold encodeKList

theorem shapeK_node (tk ck name : String) (kids : List KTree) :
    shapeK (.node tk ck name kids) = ⟨name, shapeKList kids⟩ := by
  conv_lhs => unfold shapeK

theorem shapeKList_nil : shapeKList [] = [] := by
  unfold shapeKList
  rfl

theorem shapeKList_cons (k : KTree) (ks : List KTree) :
    shapeKList (k :: ks) = shapeK k :: shapeKList ks := by
  conv_lhs => unfold shapeKList

theorem heightK_node (tk ck name : String) (kids : List KTree) :
    heightK (.node tk ck name kids) = 1 + heightKList kids := by
  conv_lhs => unfold heightK

theorem heightKList_nil : heightKList [] = 0 := by
  unfold heightKList
  rfl

theorem heightKList_cons (k : KTree) (ks : List KTree) :
    heightKList (k :: ks) = max (heightK k) (heightKList ks) := by
  conv_lhs => unfold heightKList

theorem wfK_node (e : TreeExtractor) (tk ck name : String) (kids : List KTree) :
    wfK e (.node tk ck name kids) =
      (decide (tk ∈ e.titleKeys) && decide (ck ∈ e.childrenKeys) &&
       decide (tk ≠ ck) && decide (name ≠ "") && wfKList e kids) := by
  conv_lhs => unfold wfK

theorem wfKList_nil (e : TreeExtractor) : wfKList e [] = true := by
  unfold wfKList
  rfl

theorem wfKList_cons (e : TreeExtractor) (k : KTree) (ks : List KTree) :
    wfKList e (k :: ks) = (wfK e k && wfKList e ks) := by
  conv_lhs => unfold wfKList

theorem heightS_node (nm : String) (cs : List SimplifiedNode) :
    heightS ⟨nm, cs⟩ = 1 + heightSList cs := by
  unfold heightS
  rfl

theorem heightSList_nil : heightSList [] = 0 := by
  unfold heightSList
  rfl

theorem heightSList_cons (c : SimplifiedNode) (cs : List SimplifiedNode) :
    heightSList (c :: cs) = max (heightS c) (heightSList cs) := by
  conv_lhs => unfold heightSList

theorem heightKList_mem {k : KTree} : ∀ {ks : List KTree}, k ∈ ks →
    heightK k ≤ heightKList ks := by
  intro ks
  induction ks with
  | nil => intro h; cases h
  | cons a as ih =>
    intro h
    rw [heightKList_cons]
    rcases List.mem_cons.mp h with h | h
    · subst h
      exact Nat.le_max_left _ _
    · exact le_trans (ih h) (Nat.le_max_right _ _)

theorem wfKList_mem (e : TreeExtractor) {k : KTree} : ∀ {ks : List KTree},
    wfKList e ks = true → k ∈ ks → wfK e k = true := by
  intro ks
  induction ks with
  | nil => intro _ h; cases h
  | cons a as ih =>
    intro hwf h
    rw [wfKList_cons] at hwf
    rcases Bool.and_eq_true _ _ |>.mp hwf with ⟨h1, h2⟩
    rcases List.mem_cons.mp h with h | h
    · subst h; exact h1
    · exact ih h2 h

/-- `findTitle` on an encoded node resolves the node's title string,
whatever configured synonym the node used. -/
theorem findTitle_go_enc (tk ck name : String) (kidsEnc : List JVal)
    (hne : tk ≠ ck) (hnm : name ≠ "") :
    ∀ ks : List String, tk ∈ ks →
      findTitle.go [(tk, .str name), (ck, .arr kidsEnc)] ks = name := by
  intro ks
  induction ks with
  | nil => intro h; cases h
  | cons key rest ih =>
    intro hmem
    unfold findTitle.go
    by_cases hk : tk = key
    · subst hk
      have hj : jlookup [(tk, .str name), (ck, .arr kidsEnc)] tk =
          some (.str name) := by
        simp [jlookup]
      simp only [hj]
      rw [if_pos hnm]
    · have hmem2 : tk ∈ rest := by
        rcases List.mem_cons.mp hmem with h | h
        · exact absurd h hk
        · exact h
      by_cases hc : ck = key
      · have hj : jlookup [(tk, .str name), (ck, .arr kidsEnc)] key =
            some (.arr kidsEnc) := by
          simp [jlookup, hk, hc]
        simp only [hj]
        exact ih hmem2
      · have hj : jlookup [(tk, .str name), (ck, .arr kidsEnc)] key = none := by
          simp [jlookup, hk, hc]
        simp only [hj]
        exact ih hmem2

/-- `findChildren` on an encoded node with children finds them under
the node's configured synonym. -/
theorem findChildren_go_enc (tk ck name : String) (kidsEnc : List JVal)
    (hne : tk ≠ ck) (hkne : kidsEnc ≠ []) :
    ∀ ks : List String, ck ∈ ks →
      findChildren.go [(tk, .str name), (ck, .arr kidsEnc)] ks = .ok kidsEnc := by
  have hE : kidsEnc.isEmpty = false := by
    cases kidsEnc with
    | nil => exact absurd rfl hkne
    | cons a as => rfl
  intro ks
  induction ks with
  | nil => intro h; cases h
  | cons key rest ih =>
    intro hmem
    unfold findChildren.go
    by_cases hc : ck = key
    · have hj : jlookup [(tk, .str name), (ck, .arr kidsEnc)] key =
          some (.arr kidsEnc) := by
        subst hc
        simp [jlookup, hne]
      simp only [hj, hE]
      rfl
    · have hmem2 : ck ∈ rest := by
        rcases List.mem_cons.mp hmem with h | h
        · exact absurd h hc
        · exact h
      by_cases hk : tk = key
      · have hj : jlookup [(tk, .str name), (ck, .arr kidsEnc)] key =
            some (.str name) := by
          simp [jlookup, hk]
        simp only [hj]
        exact ih hmem2
      · have hj : jlookup [(tk, .str name), (ck, .arr kidsEnc)] key = none := by
          simp [jlookup, hk, hc]
        simp only [hj]
        exact ih hmem2

/-- `findChildren` on an encoded leaf finds nothing under any key
list. -/
theorem findChildren_go_leaf (tk ck name : String) :
    ∀ ks : List String,
      findChildren.go [(tk, .str name), (ck, .arr [])] ks = .ok [] := by
  intro ks
  induction ks with
  | nil =>
    unfold findChildren.go
    rfl
  | cons key rest ih =>
    unfold findChildren.go
    by_cases hk : tk = key
    · have hj : jlookup [(tk, .str name), (ck, .arr [])] key =
          some (.str name) := by
        simp [jlookup, hk]
      simp only [hj]
      exact ih
    · by_cases hc : ck = key
      · have hj : jlookup [(tk, .str name), (ck, .arr [])] key =
            some (.arr []) := by
          simp [jlookup, hk, hc]
        simp only [hj]
        exact ih
      · have hj : jlookup [(tk, .str name), (ck, .arr [])] key = none := by
          simp [jlookup, hk, hc]
        simp only [hj]
        exact ih

/-- The empty-children synthetic fallback produces nothing on an
encoded leaf. -/
theorem syntheticChildren_enc_leaf (tk ck name : String) :
    syntheticChildren [(tk, .str name), (ck, .arr [])] name = [] := by
  unfold syntheticChildren
  by_cases h1 : tk = name <;> by_cases h2 : ck = name <;>
    simp [h1, h2, List.filterMap_cons]

/-- The children loop on encoded subtrees yields the expected shapes. -/
theorem extractKids_encode (e : TreeExtractor) (d : Nat) :
    ∀ kids : List KTree,
      (∀ k ∈ kids, extractTree e (encodeK k) d = .ok (some (shapeK k))) →
      extractKids e (encodeKList kids) d = .ok (shapeKList kids) := by
  intro kids
  induction kids with
  | nil =>
    intro _
    rw [encodeKList_nil, shapeKList_nil]
    exact extractKids_nil e d
  | cons k ks ih =>
    intro hch
    rw [encodeKList_cons, extractKids_cons_obj, shapeKList_cons]
    rw [hch k (List.mem_cons_self _ _)]
    rw [ih (fun k2 hk2 => hch k2 (List.mem_cons_of_mem _ hk2))]

/-- Height-fuel version of the key-synonym round trip. -/
theorem extractTree_encodeK_fuel (e : TreeExtractor) :
    ∀ (K : Nat) (t : KTree) (d : Nat),
      heightK t ≤ K →
      wfK e t = true →
      d + heightK t ≤ e.maxDepth + 1 →
      extractTree e (encodeK t) d = .ok (some (shapeK t)) := by
  intro K
  induction K with
  | zero =>
    intro t d h1 _ _
    cases t with
    | node tk ck name kids =>
      rw [heightK_node] at h1
      omega
  | succ K ih =>
    intro t d h1 hwf hd
    cases t with
    | node tk ck name kids =>
      rw [heightK_node] at h1 hd
      rw [wfK_node] at hwf
      simp only [Bool.and_eq_true, decide_eq_true_eq] at hwf
      obtain ⟨⟨⟨⟨htk, hck⟩, hne⟩, hnm⟩, hkids⟩ := hwf
      have hch : ∀ k ∈ kids, extractTree e (encodeK k) (d + 1) = .ok (some (shapeK k)) := by
        intro k hk
        have hle : heightK k ≤ heightKList kids := heightKList_mem hk
        exact ih k (d + 1) (by omega) (wfKList_mem e hkids hk) (by omega)
      have hdep : ¬(d > e.maxDepth) := by omega
      have hT : findTitle e [(tk, .str name), (ck, .arr (encodeKList kids))] = name := by
        unfold findTitle
        exact findTitle_go_enc tk ck name _ hne hnm e.titleKeys htk
      rw [encodeK_node, shapeK_node]
      cases hk0 : kids with
      | nil =>
        rw [hk0] at hT
        have hC : findChildren e [(tk, .str name), (ck, .arr (encodeKList []))] = .ok [] := by
          unfold findChildren
          rw [encodeKList_nil]
          exact findChildren_go_leaf tk ck name e.childrenKeys
        rw [encodeKList_nil] at hC
        unfold extractTree
        rw [dif_neg hdep]
        dsimp only
        rw [hT]
        simp only [encodeKList_nil, hC, extractKids_nil, List.isEmpty_nil,
          syntheticChildren_enc_leaf, shapeKList_nil]
        simp [hnm]
      | cons k0 ks0 =>
        have hkne : encodeKList kids ≠ [] := by
          rw [hk0, encodeKList_cons]
          exact List.cons_ne_nil _ _
        rw [← hk0]
        have hC : findChildren e [(tk, .str name), (ck, .arr (encodeKList kids))] =
            .ok (encodeKList kids) := by
          unfold findChildren
          exact findChildren_go_enc tk ck name _ hne hkne e.childrenKeys hck
        have hK : extractKids e (encodeKList kids) (d + 1) = .ok (shapeKList kids) :=
          extractKids_encode e (d + 1) kids hch
        have hSne : (shapeKList kids).isEmpty = false := by
          rw [hk0, shapeKList_cons]
          rfl
        unfold extractTree
        rw [dif_neg hdep]
        dsimp only
        rw [hT]
        simp only [hC, hK, hSne]
        simp [hnm]

/-- C3 (amended): the key-synonym round trip holds exactly up to the
depth guard — a well-formed tree placed at depth `d` is reproduced
verbatim (fields renamed to `name`/`children`) whenever
`d + heightK t ≤ maxDepth + 1`.  Deeper trees are truncated (see
`c3_counterexample`), so the unrestricted claim fails. -/
theorem c3_keyed_roundtrip (e : TreeExtractor) (t : KTree) (d : Nat)
    (hwf : wfK e t = true) (hd : d + heightK t ≤ e.maxDepth + 1) :
    extractTree e (encodeK t) d = .ok (some (shapeK t)) :=
  extractTree_encodeK_fuel e (heightK t) t d le_rfl hwf hd

theorem heightSList_le_of_forall {ns : List SimplifiedNode} {B : Nat}
    (h : ∀ n ∈ ns, heightS n ≤ B) : heightSList ns ≤ B := by
  induction ns with
  | nil =>
    rw [heightSList_nil]
    exact Nat.zero_le B
  | cons c cs ih =>
    rw [heightSList_cons]
    exact Nat.max_le.mpr ⟨h c (List.mem_cons_self _ _),
      ih (fun n hn => h n (List.mem_cons_of_mem _ hn))⟩

theorem syntheticScalarChild_height {k : String} {v : JVal} {n : SimplifiedNode}
    (h : syntheticScalarChild k v = some n) : heightS n ≤ 1 := by
  unfold syntheticScalarChild at h
  split at h
  · cases h
  · injection h with h
    subst h
    rw [heightS_node, heightSList_nil]
  · injection h with h
    subst h
    rw [heightS_node, heightSList_nil]

theorem syntheticArrayChild_height {i : Nat} {v : JVal} {n : SimplifiedNode}
    (h : syntheticArrayChild i v = some n) : heightS n ≤ 1 := by
  unfold syntheticArrayChild at h
  split at h
  · cases h
  · injection h with h
    subst h
    rw [heightS_node, heightSList_nil]
  · injection h with h
    subst h
    rw [heightS_node, heightSList_nil]

/-- Synthetic children reach at most two levels below their parent. -/
theorem syntheticChildren_height (obj : List (String × JVal)) (title : String) :
    heightSList (syntheticChildren obj title) ≤ 2 := by
  apply heightSList_le_of_forall
  intro n hn
  unfold syntheticChildren at hn
  rcases List.mem_filterMap.mp hn with ⟨kv, _, hf⟩
  by_cases ht : kv.1 = title
  · rw [if_pos ht] at hf
    cases hf
  · rw [if_neg ht] at hf
    cases hv : kv.2 <;> simp only [hv] at hf
    · cases hf
    · cases hf
    · cases hf
    · cases hf
    · rename_i v
      split at hf
      · cases hf
      · injection hf with hf
        subst hf
        rw [heightS_node]
        have hub : heightSList (v.enum.filterMap
            (fun p : Nat × JVal => syntheticArrayChild p.1 p.2)) ≤ 1 := by
          apply heightSList_le_of_forall
          intro m hm
          rcases List.mem_filterMap.mp hm with ⟨ip, _, hg⟩
          exact syntheticArrayChild_height hg
        omega
    · rename_i v
      split at hf
      · cases hf
      · injection hf with hf
        subst hf
        rw [heightS_node]
        have hub : heightSList (v.filterMap
            (fun nkv : String × JVal => syntheticScalarChild nkv.1 nkv.2)) ≤ 1 := by
          apply heightSList_le_of_forall
          intro m hm
          rcases List.mem_filterMap.mp hm with ⟨nkv, _, hg⟩
          exact syntheticScalarChild_height hg
        omega

/-- Children-loop outputs inherit any same-depth height bound. -/
theorem extractKids_height_of_tree (e : TreeExtractor) (depth B : Nat)
    (htree : ∀ obj n, extractTree e obj depth = .ok (some n) → heightS n ≤ B) :
    ∀ (cs : List JVal) (ns : List SimplifiedNode),
      extractKids e cs depth = .ok ns → heightSList ns ≤ B := by
  intro cs
  induction cs with
  | nil =>
    intro ns h
    unfold extractKids at h
    injection h with h
    subst h
    rw [heightSList_nil]
    exact Nat.zero_le B
  | cons c rest ih =>
    intro ns h
    unfold extractKids at h
    split at h
    · rename_i co
      split at h
      · cases h
      · rename_i r hr
        split at h
        · cases h
        · rename_i others ho
          injection h with h
          subst h
          cases r with
          | none => exact ih _ ho
          | some m =>
            rw [heightSList_cons]
            exact Nat.max_le.mpr ⟨htree co m hr, ih _ ho⟩
    · exact ih _ h

/-- Fuel-indexed height bound: a node extracted at depth `d` reaches at
most `maxDepth + 3 - d` levels (the guard stops title/children
recursion at `maxDepth`, and synthetic children may add two levels
below the last guarded node). -/
theorem extractTree_height_fuel (e : TreeExtractor) :
    ∀ (K : Nat) (obj : List (String × JVal)) (depth : Nat) (n : SimplifiedNode),
      e.maxDepth + 2 - depth ≤ K →
      extractTree e obj depth = .ok (some n) →
      heightS n ≤ e.maxDepth + 3 - depth := by
  intro K
  induction K with
  | zero =>
    intro obj depth n hf h
    unfold extractTree at h
    split at h
    · simp at h
    · rename_i hd
      omega
  | succ K ih =>
    intro obj depth n hf h
    unfold extractTree at h
    split at h
    · simp at h
    · rename_i hd
      split at h
      · cases h
      · rename_i children hfc
        split at h
        · cases h
        · rename_i kids hek
          have hkids : heightSList kids ≤ e.maxDepth + 3 - (depth + 1) := by
            refine extractKids_height_of_tree e (depth + 1) _ ?_ _ _ hek
            intro obj2 n2 h2
            exact ih obj2 (depth + 1) n2 (by omega) h2
          split at h <;> rename_i hemp
          all_goals dsimp only at h
          · split at h
            · injection h with h
              injection h with h
              subst h
              rw [heightS_node]
              have hsyn := syntheticChildren_height obj (findTitle e obj)
              omega
            · simp at h
          · split at h
            · injection h with h
              injection h with h
              subst h
              rw [heightS_node]
              omega
            · simp at h

/-- A straight chain of `n + 1` well-formed nodes using the default
`title`/`children` keys. -/
def chainK : Nat → KTree
  | 0 => .node "title" "children" "t" []
  | n + 1 => .node "title" "children" "t" [chainK n]

theorem wfK_chainK : ∀ n : Nat, wfK extractorDefault (chainK n) = true := by
  intro n
  induction n with
  | zero =>
    show wfK extractorDefault (.node "title" "children" "t" []) = true
    rw [wfK_node, wfKList_nil]
    decide
  | succ n ih =>
    show wfK extractorDefault (.node "title" "children" "t" [chainK n]) = true
    rw [wfK_node, wfKList_cons, wfKList_nil, ih]
    decide

theorem heightS_shapeK_chainK : ∀ n : Nat, heightS (shapeK (chainK n)) = n + 1 := by
  intro n
  induction n with
  | zero =>
    show heightS (shapeK (.node "title" "children" "t" [])) = 1
    rw [shapeK_node, shapeKList_nil, heightS_node, heightSList_nil]
  | succ n ih =>
    show heightS (shapeK (.node "title" "children" "t" [chainK n])) = n + 2
    rw [shapeK_node, shapeKList_cons, shapeKList_nil, heightS_node,
      heightSList_cons, heightSList_nil, ih]
    omega

/-- C3 counterexample: a well-formed 103-level chain is NOT reproduced —
its expected shape is 104 levels tall, but every node the generic
extractor emits from depth 0 is at most 103 levels tall (the depth
guard truncates the walk), so the unrestricted round-trip claim fails. -/
theorem c3_counterexample :
    wfK extractorDefault (chainK 103) = true ∧
    extractTree extractorDefault (encodeK (chainK 103)) 0 ≠
      .ok (some (shapeK (chainK 103))) := by
  refine ⟨wfK_chainK 103, ?_⟩
  intro h
  have hb := extractTree_height_fuel extractorDefault
    (extractorDefault.maxDepth + 2) (encodeK (chainK 103)) 0
    (shapeK (chainK 103)) (by decide) h
  rw [heightS_shapeK_chainK 103] at hb
  revert hb
  decide

/-- Witness for the depth-bounded round trip: a two-level tree mixing
the `title`/`children` and `name`/`nodes` synonyms. -/
theorem c3_keyed_roundtrip_witness :
    wfK extractorDefault
      (.node "title" "children" "A" [.node "name" "nodes" "B" []]) = true ∧
    extractTree extractorDefault
        (encodeK (.node "title" "children" "A" [.node "name" "nodes" "B" []])) 0 =
      .ok (some (shapeK (.node "title" "children" "A" [.node "name" "nodes" "B" []]))) := by
  have hwf : wfK extractorDefault
      (.node "title" "children" "A" [.node "name" "nodes" "B" []]) = true := by
    rw [wfK_node, wfKList_cons, wfK_node, wfKList_nil]
    decide
  have hh : 0 + heightK (.node "title" "children" "A" [.node "name" "nodes" "B" []]) ≤
      extractorDefault.maxDepth + 1 := by
    rw [heightK_node, heightKList_cons, heightK_node, heightKList_nil]
    decide
  exact ⟨hwf, c3_keyed_roundtrip extractorDefault _ 0 hwf hh⟩

/-! ## Output encoder (C4).  The serializer is `json.MarshalIndent`
(two-space indent); the escape-decoding walk itself does not appear in
`src/` and is modelled from the spec. -/

/-- Lowercase hex digit (Go `encoding/json` uses `0123456789abcdef`). -/
def hexDigitChar (n : Nat) : Char :=
  if n < 10 then Char.ofNat (48 + n) else Char.ofNat (87 + n)

/-- Go `encoding/json` escaping of one character (HTML escaping on, as
`MarshalIndent` defaults): quote, backslash, `\n`, `\r`, `\t` as
two-character escapes; `<`, `>`, `&` and other control characters as
`\u00xx`; U+2028 and U+2029 as six-character escapes; everything else
literal. -/
def goEscapeChar (c : Char) : List Char :=
  if c = '"' then ['\\', '"']
  else if c = '\\' then ['\\', '\\']
  else if c = '\n' then ['\\', 'n']
  else if c = '\r' then ['\\', 'r']
  else if c = '\t' then ['\\', 't']
  else if c = '<' then ['\\', 'u', '0', '0', '3', 'c']
  else if c = '>' then ['\\', 'u', '0', '0', '3', 'e']
  else if c = '&' then ['\\', 'u', '0', '0', '2', '6']
  else if c.toNat < 0x20 then
    ['\\', 'u', '0', '0', hexDigitChar (c.toNat / 16), hexDigitChar (c.toNat % 16)]
  else if c.toNat = 0x2028 then ['\\', 'u', '2', '0', '2', '8']
  else if c.toNat = 0x2029 then ['\\', 'u', '2', '0', '2', '9']
  else [c]

/-- Escapes every character of a string body. -/
def escList : List Char → List Char
  | [] => []
  | c :: cs => goEscapeChar c ++ escList cs

/-- Indentation of `json.MarshalIndent(v, "", "  ")` at nesting level
`n`. -/
def pad (n : Nat) : List Char := List.replicate (2 * n) ' '

mutual

/-- One node as `json.MarshalIndent` renders it at nesting level `ind`
(fields in struct order `name`, `children`; an empty child list renders
as `[]`; two-space indent). -/
def renderNode (ind : Nat) : SimplifiedNode → List Char
  | ⟨nm, cs⟩ =>
    ['\x7b', '\n'] ++ pad (ind + 1) ++ ['"', 'n', 'a', 'm', 'e', '"', ':', ' ', '"'] ++
    escList nm.data ++ ['"', ',', '\n'] ++ pad (ind + 1) ++
    ['"', 'c', 'h', 'i', 'l', 'd', 'r', 'e', 'n', '"', ':', ' '] ++
    renderNodes (ind + 1) cs ++ ['\n'] ++ pad ind ++ ['\x7d']

/-- A node array as `json.MarshalIndent` renders it. -/
def renderNodes (ind : Nat) : List SimplifiedNode → List Char
  | [] => ['[', ']']
  | x :: xs =>
    ['[', '\n'] ++ pad (ind + 1) ++ renderNode (ind + 1) x ++
    renderMore (ind + 1) xs ++ ['\n'] ++ pad ind ++ [']']

/-- The remaining comma-separated array elements. -/
def renderMore (ind : Nat) : List SimplifiedNode → List Char
  | [] => []
  | x :: xs => [',', '\n'] ++ pad ind ++ renderNode ind x ++ renderMore ind xs

end

/-- `json.MarshalIndent` text of the marshalled result value. -/
def renderRes : ResultVal → List Char
  | .single n => renderNode 0 n
  | .multi ns => renderNodes 0 ns
  | .nilPtr => ['n', 'u', 'l', 'l']

/-- Modelled from the spec: the decoding walk of the Output Encoder —
left to right over the serialized bytes, `\u` followed by four hex
digits is decoded to the code point's UTF-8 form unless the code point
is quote or backslash (kept escaped to preserve JSON syntax) or not a
valid scalar (left un-decoded); any other backslash pair is copied
unchanged.  Fueled (one unit per step); the wrapper supplies
`length` fuel, which one step per consumed character never exhausts. -/
def decodeUF : Nat → List Char → List Char
  | 0, l => l
  | _ + 1, [] => []
  | fuel + 1, c :: rest =>
    if c = '\\' then
      match rest with
      | 'u' :: a :: b :: d :: e :: rest2 =>
        (match hex4 a b d e with
         | some n =>
           if n = 0x22 || n = 0x5c || (0xd800 ≤ n && n < 0xe000) then
             '\\' :: 'u' :: a :: b :: d :: e :: decodeUF fuel rest2
           else Char.ofNat n :: decodeUF fuel rest2
         | none => '\\' :: 'u' :: decodeUF fuel (a :: b :: d :: e :: rest2))
      | x :: rest2 => '\\' :: x :: decodeUF fuel rest2
      | [] => ['\\']
    else c :: decodeUF fuel rest

/-- Modelled from the spec: the full decoding walk. -/
def decodeUnicodeEscapes (l : List Char) : List Char := decodeUF l.length l

/-- Modelled from the spec: `Encode` — serialize with
`json.MarshalIndent` and run the escape-decoding walk over the
bytes. -/
def specEncode (r : ResultVal) : String :=
  String.mk (decodeUnicodeEscapes (renderRes r))

mutual

/-- The dynamic JSON value a node's serialized bytes decode to. -/
def nodeToJVal : SimplifiedNode → JVal
  | ⟨nm, cs⟩ => .obj [("name", .str nm), ("children", .arr (nodesToJVal cs))]

def nodesToJVal : List SimplifiedNode → List JVal
  | [] => []
  | c :: cs => nodeToJVal c :: nodesToJVal cs

end

/-- The dynamic JSON value a result's serialized bytes decode to. -/
def resultToJVal : ResultVal → JVal
  | .single n => nodeToJVal n
  | .multi ns => .arr (nodesToJVal ns)
  | .nilPtr => .null

theorem renderNode_def (ind : Nat) (nm : String) (cs : List SimplifiedNode) :
    renderNode ind ⟨nm, cs⟩ =
      ['\x7b', '\n'] ++ pad (ind + 1) ++ ['"', 'n', 'a', 'm', 'e', '"', ':', ' ', '"'] ++
      escList nm.data ++ ['"', ',', '\n'] ++ pad (ind + 1) ++
      ['"', 'c', 'h', 'i', 'l', 'd', 'r', 'e', 'n', '"', ':', ' '] ++
      renderNodes (ind + 1) cs ++ ['\n'] ++ pad ind ++ ['\x7d'] := by
  conv_lhs => unfold renderNode

theorem renderNodes_nil (ind : Nat) : renderNodes ind [] = ['[', ']'] := by
  unfold renderNodes
  rfl

theorem renderNodes_cons (ind : Nat) (x : SimplifiedNode) (xs : List SimplifiedNode) :
    renderNodes ind (x :: xs) =
      ['[', '\n'] ++ pad (ind + 1) ++ renderNode (ind + 1) x ++
      renderMore (ind + 1) xs ++ ['\n'] ++ pad ind ++ [']'] := by
  conv_lhs => unfold renderNodes

theorem renderMore_nil (ind : Nat) : renderMore ind [] = [] := by
  unfold renderMore
  rfl

theorem renderMore_cons (ind : Nat) (x : SimplifiedNode) (xs : List SimplifiedNode) :
    renderMore ind (x :: xs) =
      [',', '\n'] ++ pad ind ++ renderNode ind x ++ renderMore ind xs := by
  conv_lhs => unfold renderMore

theorem nodeToJVal_def (nm : String) (cs : List SimplifiedNode) :
    nodeToJVal ⟨nm, cs⟩ =
      .obj [("name", .str nm), ("children", .arr (nodesToJVal cs))] := by
  conv_lhs => unfold nodeToJVal

theorem nodesToJVal_nil : nodesToJVal [] = [] := by
  unfold nodesToJVal
  rfl

theorem nodesToJVal_cons (c : SimplifiedNode) (cs : List SimplifiedNode) :
    nodesToJVal (c :: cs) = nodeToJVal c :: nodesToJVal cs := by
  conv_lhs => unfold nodesToJVal

/-- A character the encoder leaves parseable AND the decoding walk
restores literally: not quote, not backslash, not a control
character. -/
def safeChar (c : Char) : Bool :=
  decide (c ≠ '"') && decide (c ≠ '\\') && decide (0x20 ≤ c.toNat)

theorem decodeUF_nil : ∀ f : Nat, decodeUF f [] = [] := by
  intro f
  cases f <;> rfl


/-- One escaped safe character decodes back to itself (one walk
step). -/
theorem decodeUF_escChar (c : Char) (hc : safeChar c = true) (f : Nat)
    (l : List Char) :
    decodeUF (f + 1) (goEscapeChar c ++ l) = c :: decodeUF f l := by
  unfold safeChar at hc
  simp only [Bool.and_eq_true, decide_eq_true_eq] at hc
  obtain ⟨⟨hq, hb⟩, hctl⟩ := hc
  unfold goEscapeChar
  rw [if_neg hq, if_neg hb]
  rw [if_neg (show ¬c = '\n' by intro h; subst h; simp at hctl)]
  rw [if_neg (show ¬c = '\r' by intro h; subst h; simp at hctl)]
  rw [if_neg (show ¬c = '\t' by intro h; subst h; simp at hctl)]
  by_cases h6 : c = '<'
  · rw [if_pos h6]; subst h6; rfl
  rw [if_neg h6]
  by_cases h7 : c = '>'
  · rw [if_pos h7]; subst h7; rfl
  rw [if_neg h7]
  by_cases h8 : c = '&'
  · rw [if_pos h8]; subst h8; rfl
  rw [if_neg h8]
  rw [if_neg (show ¬c.toNat < 0x20 by omega)]
  by_cases h10 : c.toNat = 0x2028
  · rw [if_pos h10]
    have he : Char.ofNat 0x2028 = c := by
      rw [← h10]; exact Char.ofNat_toNat c
    rw [show decodeUF (f + 1) (['\\', 'u', '2', '0', '2', '8'] ++ l) =
        Char.ofNat 0x2028 :: decodeUF f l from rfl, he]
  rw [if_neg h10]
  by_cases h11 : c.toNat = 0x2029
  · rw [if_pos h11]
    have he : Char.ofNat 0x2029 = c := by
      rw [← h11]; exact Char.ofNat_toNat c
    rw [show decodeUF (f + 1) (['\\', 'u', '2', '0', '2', '9'] ++ l) =
        Char.ofNat 0x2029 :: decodeUF f l from rfl, he]
  rw [if_neg h11]
  show decodeUF (f + 1) (c :: l) = c :: decodeUF f l
  conv_lhs => rw [decodeUF.eq_def]
  dsimp only
  rw [if_neg hb]

theorem goEscapeChar_ne_nil (c : Char) : goEscapeChar c ≠ [] := by
  unfold goEscapeChar
  by_cases h1 : c = '"'
  · rw [if_pos h1]
    exact List.cons_ne_nil _ _
  rw [if_neg h1]
  by_cases h2 : c = '\\'
  · rw [if_pos h2]
    exact List.cons_ne_nil _ _
  rw [if_neg h2]
  by_cases h3 : c = '\n'
  · rw [if_pos h3]
    exact List.cons_ne_nil _ _
  rw [if_neg h3]
  by_cases h4 : c = '\r'
  · rw [if_pos h4]
    exact List.cons_ne_nil _ _
  rw [if_neg h4]
  by_cases h5 : c = '\t'
  · rw [if_pos h5]
    exact List.cons_ne_nil _ _
  rw [if_neg h5]
  by_cases h6 : c = '<'
  · rw [if_pos h6]
    exact List.cons_ne_nil _ _
  rw [if_neg h6]
  by_cases h7 : c = '>'
  · rw [if_pos h7]
    exact List.cons_ne_nil _ _
  rw [if_neg h7]
  by_cases h8 : c = '&'
  · rw [if_pos h8]
    exact List.cons_ne_nil _ _
  rw [if_neg h8]
  by_cases h9 : c.toNat < 0x20
  · rw [if_pos h9]
    exact List.cons_ne_nil _ _
  rw [if_neg h9]
  by_cases h10 : c.toNat = 0x2028
  · rw [if_pos h10]
    exact List.cons_ne_nil _ _
  rw [if_neg h10]
  by_cases h11 : c.toNat = 0x2029
  · rw [if_pos h11]
    exact List.cons_ne_nil _ _
  rw [if_neg h11]
  exact List.cons_ne_nil _ _

theorem escList_length_ge : ∀ l : List Char, l.length ≤ (escList l).length := by
  intro l
  induction l with
  | nil => simp [escList]
  | cons c cs ih =>
    show cs.length + 1 ≤ (goEscapeChar c ++ escList cs).length
    rw [List.length_append]
    have h1 : 1 ≤ (goEscapeChar c).length := by
      cases hg : goEscapeChar c with
      | nil => exact absurd hg (goEscapeChar_ne_nil c)
      | cons x xs => simp
    omega

/-- The decoding walk restores every safe character of an escaped
string body literally. -/
theorem decodeUF_escList : ∀ (s : List Char),
    (∀ c ∈ s, safeChar c = true) →
    ∀ (tail : List Char) (f : Nat),
      decodeUF (f + s.length) (escList s ++ tail) = s ++ decodeUF f tail := by
  intro s
  induction s with
  | nil =>
    intro _ tail f
    show decodeUF (f + 0) ([] ++ tail) = [] ++ decodeUF f tail
    rfl
  | cons c cs ih =>
    intro hsafe tail f
    show decodeUF (f + (cs.length + 1)) ((goEscapeChar c ++ escList cs) ++ tail) =
      (c :: cs) ++ decodeUF f tail
    rw [List.append_assoc]
    have := decodeUF_escChar c (hsafe c (List.mem_cons_self _ _)) (f + cs.length)
      (escList cs ++ tail)
    rw [show f + (cs.length + 1) = (f + cs.length) + 1 by omega, this]
    rw [ih (fun x hx => hsafe x (List.mem_cons_of_mem _ hx)) tail f]
    rfl

/-- The full walk over a fully escaped safe string body is the
identity. -/
theorem decodeUnicodeEscapes_escList (s : List Char)
    (hsafe : ∀ c ∈ s, safeChar c = true) :
    decodeUnicodeEscapes (escList s) = s := by
  unfold decodeUnicodeEscapes
  have hge := escList_length_ge s
  have key := decodeUF_escList s hsafe [] ((escList s).length - s.length)
  rw [decodeUF_nil, List.append_nil, List.append_nil] at key
  rw [show (escList s).length - s.length + s.length = (escList s).length by omega] at key
  exact key

/-- C4 counterexample: a name holding the control character U+0001 is
serialized as `\u0001`, the walk decodes it to a raw control byte
(U+0001 is neither quote nor backslash), and the resulting bytes are no
longer valid JSON — encoding then decoding does NOT round-trip for
every tree. -/
theorem c4_counterexample :
    parseJson (specEncode (.single ⟨String.mk [Char.ofNat 1], []⟩)) = none := by
  rfl

set_option maxRecDepth 8192 in
/-- C4 (amended): the decoding walk restores every non-control,
non-quote, non-backslash character literally (encode-then-decode is the
identity on such string bodies), and on a tree whose name holds
`&`, `<`, `>`, `'` the final bytes show those characters literally,
contain no `\u00..` escape, and parse back to the structural image of
the tree.  The unrestricted round trip of the claim fails on control
characters (see `c4_counterexample`). -/
theorem c4_encoder_corrected :
    (∀ s : List Char, (∀ c ∈ s, safeChar c = true) →
        decodeUnicodeEscapes (escList s) = s) ∧
    (specEncode (.single ⟨"A&<>\x27王", []⟩) =
        "\x7b\n  \"name\": \"A&<>\x27王\",\n  \"children\": []\n\x7d" ∧
      goContains (specEncode (.single ⟨"A&<>\x27王", []⟩)) "&" = true ∧
      goContains (specEncode (.single ⟨"A&<>\x27王", []⟩)) "<" = true ∧
      goContains (specEncode (.single ⟨"A&<>\x27王", []⟩)) ">" = true ∧
      goContains (specEncode (.single ⟨"A&<>\x27王", []⟩)) "\x27" = true ∧
      goContains (specEncode (.single ⟨"A&<>\x27王", []⟩)) "\\u00" = false ∧
      parseJson (specEncode (.single ⟨"A&<>\x27王", []⟩)) =
        some (resultToJVal (.single ⟨"A&<>\x27王", []⟩))) :=
  ⟨decodeUnicodeEscapes_escList,
   by rfl, by rfl, by rfl, by rfl, by rfl, by rfl, by rfl⟩

/-- Witness for the universal half of the amended C4 statement. -/
theorem c4_encoder_corrected_witness :
    decodeUnicodeEscapes (escList ("A&<>\x27王".data)) = "A&<>\x27王".data :=
  c4_encoder_corrected.1 ("A&<>\x27王".data) (by decide)
